import Mathlib

/-!
Verification development for `nas_walker.py` (NASWalker).

The Python source is shallowly embedded below.  The walker
(`scan_directory`), the three renderers (`json` via `json.dump`,
`_write_text_format`, `_write_markdown_format`) and the output sink
(`save_results`) become executable Lean functions over an explicit
`Env` that models the SFTP directory lister (`sftp_client.listdir_attr`)
and the wall clock (`datetime.now().isoformat()`).

Conventions of the embedding:
* Python dicts built by the walker become the tagged variants of `Node`;
  each constructor carries exactly the keys the source puts in the dict.
* Exceptions become explicit `Fault` values: `scan_directory` catches
  `PermissionError` first and every other `Exception` second, so a fault
  is either `permission` or `other msg` (where `msg` models `str(e)`).
* `datetime.fromtimestamp(st_mtime).isoformat()` is abstracted: the
  lister hands the walker the ISO text directly (field `st_mtime_iso`).
* Machine-level recursion in `scan_directory` is realised structurally
  over the fuel `max_depth + 1 - current_depth`; fuel 0 is exactly the
  source's entry guard `current_depth > max_depth` (see
  `scan_directory_guard`, `scan_directory_listing_error`,
  `scan_directory_listing_ok` for the source-shaped equations).
-/

/-- `os.path.basename` (POSIX): the part of the path after the last `/`
(empty when the path ends in `/`). -/
def basenameChars (l : List Char) : List Char :=
  l.foldl (fun acc c => if c = '/' then [] else acc ++ [c]) []

/-- `os.path.basename(p)` as used at lines 151, 159, 223, 230. -/
def basename (p : String) : String := ⟨basenameChars p.data⟩

/-- `os.path.join(a, b)` (POSIX semantics, as on the remote side):
an absolute `b` replaces `a`; otherwise a single `/` separates them. -/
def pathJoin (a b : String) : String :=
  match b.data with
  | '/' :: _ => b
  | _ =>
    if a = "" then b
    else match a.data.getLast? with
      | some '/' => a ++ b
      | _ => a ++ "/" ++ b

/-- The two ways a lister / metadata access can fail, mirroring the
`except PermissionError` / `except Exception as e` pairs of the source.
`other msg` carries `str(e)`. -/
inductive Fault where
  | permission
  | other (msg : String)
  deriving DecidableEq

/-- `str(e)` for the caught exception; `PermissionError` is rendered by
the source as the fixed literal `"权限不足"` (lines 206, 225), any other
exception as its own text (lines 214, 232). -/
def faultMsg : Fault → String
  | .permission => "权限不足"
  | .other msg => msg

/-- The metadata of one `SFTPAttributes` entry, as read by the walker:
`st_mode`, `st_size`, `st_mtime` (already converted to ISO text, see the
header comment), `st_uid`, `st_gid`. -/
structure Attrs where
  st_mode : Nat
  st_size : Nat
  st_mtime_iso : String
  st_uid : Nat
  st_gid : Nat
  deriving DecidableEq

/-- One entry returned by `listdir_attr`: its `filename`, and either its
metadata or the fault raised while the walker reads / classifies it
(the per-entry `try` at lines 173-215). -/
structure Entry where
  filename : String
  attrs : Except Fault Attrs

/-- The external world: the Directory Lister
(`sftp_client.listdir_attr`, which returns entries or raises) and the
clock (`datetime.now().isoformat()`, observed when listing a path). -/
structure Env where
  list : String → Except Fault (List Entry)
  now : String → String

/-- `stat.S_ISDIR`: the file-type bits of `st_mode` equal `S_IFDIR`
(`0o040000`); the mask is `S_IFMT = 0o170000`. -/
def S_ISDIR (mode : Nat) : Bool := mode &&& 61440 == 16384

/-- Decimal digit character (`'0'` + n). -/
def digitChar (n : Nat) : Char := Char.ofNat (48 + n)

/-- Octal digits of `n`, most significant first (`"0"` for 0), computed
with structural fuel (`n < 8 ^ (n+1)` always holds). -/
def octDigitsAux : Nat → Nat → List Char → List Char
  | 0, _, acc => acc
  | fuel + 1, n, acc =>
    if n < 8 then digitChar n :: acc
    else octDigitsAux fuel (n / 8) (digitChar (n % 8) :: acc)

/-- `oct(n)` in Python: `"0o"` followed by the octal digits. -/
def octStr (n : Nat) : String := ⟨'0' :: 'o' :: octDigitsAux (n + 1) n []⟩

/-- `oct(item.st_mode)[-3:]` (line 194): the last three characters of the
octal rendering. -/
def octLast3 (mode : Nat) : String :=
  ⟨((octStr mode).data.reverse.take 3).reverse⟩

/-- The tagged tree produced by `scan_directory`.  Each constructor
carries exactly the keys the corresponding Python dict holds:
* `dir`: `{"type": "directory", name, path, items, item_count, scan_time}`
  (lines 157-164);
* `truncatedDir`: the truncated child appended by the parent at
  `current_depth == max_depth`, `{"type": "directory", name, path,
  "truncated": True}` (lines 180-185);
* `depthGuardDir`: the node returned by the entry guard
  `current_depth > max_depth`, `{"type": "directory", name,
  "truncated": True}` — note: no `path` (line 151);
* `file`: `{"type": "file", name, path, size, modified, permissions,
  owner, group}` (lines 188-197);
* `error`: `{"type": "error", name, path, error}` (lines 202-233); the
  `error` value is optional only so that the renderers' dict lookup
  `data.get('error', ...)` is statable — the walker always sets it. -/
inductive Node where
  | dir (name path : String) (items : List Node) (item_count : Nat)
        (scan_time : String)
  | truncatedDir (name path : String)
  | depthGuardDir (name : String)
  | file (name path : String) (size : Nat)
         (modified permissions : String) (owner group : Nat)
  | error (name path : String) (err : Option String)

/-- `scan_directory` with explicit fuel `max_depth + 1 - current_depth`.
Fuel 0 coincides with the source's entry guard
`current_depth > max_depth` (line 150); with positive fuel the body is
the source's `try` block: list the path, build the directory dict, and
classify each entry, skipping `.` and `..` (lines 153-233). -/
def scanFuel (env : Env) (remote_path : String)
    (max_depth current_depth : Nat) : Nat → Node
  | 0 => .depthGuardDir (basename remote_path)
  | fuel + 1 =>
    match env.list remote_path with
    | .error f => .error (basename remote_path) remote_path (some (faultMsg f))
    | .ok entries =>
      let items := entries.filterMap fun item =>
        if item.filename = "." ∨ item.filename = ".." then none
        else
          let item_path := pathJoin remote_path item.filename
          some <| match item.attrs with
            | .error f => Node.error item.filename item_path (some (faultMsg f))
            | .ok a =>
              if S_ISDIR a.st_mode then
                if current_depth < max_depth then
                  scanFuel env item_path max_depth (current_depth + 1) fuel
                else
                  Node.truncatedDir item.filename item_path
              else
                Node.file item.filename item_path a.st_size a.st_mtime_iso
                  (octLast3 a.st_mode) a.st_uid a.st_gid
      let nm := if basename remote_path = "" then "/" else basename remote_path
      .dir nm remote_path items items.length (env.now remote_path)

/-- `NASWalker.scan_directory(remote_path, max_depth, current_depth)`. -/
def scan_directory (env : Env) (remote_path : String)
    (max_depth : Nat) (current_depth : Nat) : Node :=
  scanFuel env remote_path max_depth current_depth
    (max_depth + 1 - current_depth)

/-! ## Field accessors of the node dicts

These model reading (`data["k"]`) and probing (`"k" in data`,
`data.get("k", default)`) the dict keys that the renderers use. -/

/-- `data["type"]`. -/
def Node.typeOf : Node → String
  | .dir .. | .truncatedDir .. | .depthGuardDir .. => "directory"
  | .file .. => "file"
  | .error .. => "error"

/-- `data["name"]`. -/
def Node.nameOf : Node → String
  | .dir n .. | .truncatedDir n _ | .depthGuardDir n
  | .file n .. | .error n .. => n

/-- `data["path"]` when present (`depthGuardDir` carries no path). -/
def Node.pathOpt : Node → Option String
  | .dir _ p .. | .truncatedDir _ p | .file _ p .. | .error _ p _ => some p
  | .depthGuardDir _ => none

/-- `data["truncated"]` when present. -/
def Node.truncatedOpt : Node → Option Bool
  | .truncatedDir .. | .depthGuardDir .. => some true
  | _ => none

/-- `data["items"]` when present. -/
def Node.itemsOpt : Node → Option (List Node)
  | .dir _ _ items .. => some items
  | _ => none

/-- `data["item_count"]` when present. -/
def Node.itemCountOpt : Node → Option Nat
  | .dir _ _ _ c _ => some c
  | _ => none

/-- `data["scan_time"]` when present. -/
def Node.scanTimeOpt : Node → Option String
  | .dir _ _ _ _ t => some t
  | _ => none

mutual
/-- The node together with all of its descendants, in pre-order. -/
def allNodes : Node → List Node
  | .dir n p items c t => .dir n p items c t :: allNodesList items
  | x => [x]
/-- `allNodes` over a children list. -/
def allNodesList : List Node → List Node
  | [] => []
  | x :: xs => allNodes x ++ allNodesList xs
end

mutual
/-- The nodes sitting at exactly depth `k` below (and including) the
given node: depth 0 is the node itself, and only `dir` nodes (the ones
carrying `items`) have nodes below them. -/
def nodesAtDepth : Node → Nat → List Node
  | x, 0 => [x]
  | .dir _ _ items _ _, k + 1 => nodesAtDepthList items k
  | _, _ + 1 => []
/-- `nodesAtDepth` over a children list. -/
def nodesAtDepthList : List Node → Nat → List Node
  | [], _ => []
  | x :: xs, k => nodesAtDepth x k ++ nodesAtDepthList xs k
end

/-! ## Size formatting shared by the text and report renderers -/

/-- `size / (1024 * 1024)` rounded to hundredths with round-half-to-even,
i.e. the value printed by `f"{size/(1024*1024):.2f}"`.  (For
`size < 2^53` the Python double is exact, so its correctly-rounded
2-digit formatting is exactly this integer rounding.) -/
def mbHundredths (size : Nat) : Nat :=
  let num := size * 100
  let q := num / 1048576
  let r := num % 1048576
  if 524288 < r ∨ (r = 524288 ∧ q % 2 = 1) then q + 1 else q

/-- Decimal digits of `n` (structural fuel; `fuel ≥ n` suffices). -/
def natDigitsAux : Nat → Nat → List Char → List Char
  | 0, _, acc => acc
  | fuel + 1, n, acc =>
    if n < 10 then digitChar n :: acc
    else natDigitsAux fuel (n / 10) (digitChar (n % 10) :: acc)

/-- Decimal rendering of `n`, most significant digit first. -/
def natDigits (n : Nat) : List Char := natDigitsAux (n + 1) n []

/-- Decimal rendering of `n` as a string. -/
def natStr (n : Nat) : String := ⟨natDigits n⟩

/-- `f"{h/100:.2f}"`-style text from a hundredths count: integer part,
a dot, and exactly two fraction digits. -/
def twoDecOfHundredths (h : Nat) : String :=
  natStr (h / 100) ++ "." ++ (if h % 100 < 10 then "0" else "") ++
    natStr (h % 100)

/-- `f"{size/(1024*1024):.2f}"` (lines 300, 337, 354). -/
def formatMB (size : Nat) : String := twoDecOfHundredths (mbHundredths size)

/-! ## Indented-text renderer (`_write_text_format`) -/

/-- `"  " * indent` (line 292). -/
def indentStr (indent : Nat) : String := ⟨List.replicate (2 * indent) ' '⟩

mutual
/-- `NASWalker._write_text_format(data, file_handle, indent)`: each list
element is the string of one `file_handle.write(...)` call, in order
(lines 290-303).  A `directory` node recurses over `data["items"]` when
that key is present and nonempty; recursing over an empty list writes
nothing, so the emptiness test is behaviourally the plain recursion. -/
def write_text_format : Node → Nat → List String
  | .dir name _ items _ _, indent =>
    (indentStr indent ++ "[DIR] " ++ name ++ "\n") ::
      write_text_format_list items (indent + 1)
  | .truncatedDir name _, indent
  | .depthGuardDir name, indent =>
    [indentStr indent ++ "[DIR] " ++ name ++ "\n"]
  | .file name _ size _ _ _ _, indent =>
    [indentStr indent ++ "[FILE] " ++ name ++ " (" ++ formatMB size ++
      " MB)\n"]
  | .error name _ err, indent =>
    [indentStr indent ++ "[ERROR] " ++ name ++ " - " ++
      err.getD "未知错误" ++ "\n"]
/-- The loop `for item in data["items"]` of `_write_text_format`. -/
def write_text_format_list : List Node → Nat → List String
  | [], _ => []
  | x :: xs, indent =>
    write_text_format x indent ++ write_text_format_list xs indent
end

/-- One iteration of the entry loop of `scan_directory` (lines 167-215),
phrased with the recursive call back to `scan_directory` itself: skip
`.`/`..`; on a metadata fault append an `error` node; on a directory
recurse when `current_depth < max_depth` and append a `truncated` node
otherwise; on a non-directory build the `file` node. -/
def processEntry (env : Env) (remote_path : String) (max_depth : Nat)
    (current_depth : Nat) (item : Entry) : Option Node :=
  if item.filename = "." ∨ item.filename = ".." then none
  else
    let item_path := pathJoin remote_path item.filename
    some <| match item.attrs with
      | .error f => Node.error item.filename item_path (some (faultMsg f))
      | .ok a =>
        if S_ISDIR a.st_mode then
          if current_depth < max_depth then
            scan_directory env item_path max_depth (current_depth + 1)
          else
            Node.truncatedDir item.filename item_path
        else
          Node.file item.filename item_path a.st_size a.st_mtime_iso
            (octLast3 a.st_mode) a.st_uid a.st_gid

/-! ## Report (Markdown) renderer (`_write_markdown_format`) -/

/-- The optional `data["system_info"]` attachment (`run_scan` adds it to
the root dict from `get_system_info`). -/
structure SysInfo where
  system : Option String
  disk_usage : Option String

/-- One emission of `_write_markdown_format`.  `write s` is a literal
`file_handle.write(s)`; `heading`/`tableHead`/`row` name the structured
writes of the directory branch (lines 326-343) with the already-rendered
cell texts, so the claims can speak about heading levels and table rows
directly.  `MdEv.text` recovers the written string of each event. -/
inductive MdEv where
  | write (s : String)
  | heading (level : Nat) (name : String)
  | tableHead
  | row (tcell name size modified perms : String)
  deriving DecidableEq

/-- The string written for one event (heading marker is
`"#" * level`, line 327). -/
def MdEv.text : MdEv → String
  | .write s => s
  | .heading level name =>
    ⟨List.replicate level '#'⟩ ++ " 📁 " ++ name ++ "\n\n"
  | .tableHead =>
    "| 类型 | 名称 | 大小 | 修改时间 | 权限 |\n|------|------|------|----------|------|\n"
  | .row tcell name size modified perms =>
    "| " ++ tcell ++ " | " ++ name ++ " | " ++ size ++ " | " ++ modified ++
      " | " ++ perms ++ " |\n"

/-- The table row written for one child item (lines 335-343): files show
`f"{size_mb:.2f} MB"` when `size_mb > 0` (i.e. `size > 0`) and `"0 B"`
otherwise; directories show `-` placeholders; errors show the message
(default `"未知错误"`) in the permissions column. -/
def mdRow : Node → MdEv
  | .file name _ size modified perms _ _ =>
    .row "📄 文件" name
      (if 0 < size then formatMB size ++ " MB" else "0 B") modified perms
  | .dir name _ _ _ _ | .truncatedDir name _ | .depthGuardDir name =>
    .row "📁 目录" name "-" "-" "-"
  | .error name _ err =>
    .row "❌ 错误" name "-" "-" (err.getD "未知错误")

/-- `item["type"] == "directory" and "items" in item` (line 349): true
exactly for the full `dir` constructor (the only directory dict carrying
the `items` key). -/
def isDirWithItems : Node → Bool
  | .dir _ _ _ _ _ => true
  | _ => false

/-- The `indent == 0` preamble of `_write_markdown_format`
(lines 307-321): title, scan time (`data.get('scan_time', '未知')`),
the optional system-info section, and the `## 目录结构` heading. -/
def mdPrelude (data : Node) (sysInfo : Option SysInfo) : List MdEv :=
  [.write "# NAS目录结构报告\n\n",
   .write ("**扫描时间**: " ++ (data.scanTimeOpt.getD "未知") ++ "\n\n")] ++
  (match sysInfo with
   | some info =>
     [.write "## 系统信息\n\n",
      .write ("**操作系统**: " ++ info.system.getD "未知" ++ "\n\n"),
      .write "### 磁盘使用情况\n\n",
      .write "```\n",
      .write (info.disk_usage.getD "未知"),
      .write "\n```\n\n"]
   | none => []) ++
  [.write "## 目录结构\n\n"]

/-- The file block of the `elif data["type"] == "file"` branch
(lines 352-361); `owner`/`group` are ints, printed by `str`. -/
def mdFileBlock (name path : String) (size : Nat)
    (modified perms : String) (owner group : Nat) : List MdEv :=
  [.write ("- **📄 " ++ name ++ "** (" ++
     (if 0 < size then formatMB size ++ " MB" else "0 B") ++ ")\n"),
   .write ("  - 路径: `" ++ path ++ "`\n"),
   .write ("  - 修改时间: " ++ modified ++ "\n"),
   .write ("  - 权限: " ++ perms ++ "\n"),
   .write ("  - 所有者: " ++ natStr owner ++ "\n"),
   .write ("  - 组: " ++ natStr group ++ "\n\n")]

/-- The error block of the `elif data["type"] == "error"` branch
(lines 363-367). -/
def mdErrorBlock (name path : String) (err : Option String) : List MdEv :=
  [.write ("- **❌ " ++ name ++ "**\n"),
   .write ("  - 路径: `" ++ path ++ "`\n"),
   .write ("  - 错误: " ++ err.getD "未知错误" ++ "\n\n")]

mutual
/-- `NASWalker._write_markdown_format(data, file_handle, indent)` as the
ordered list of its write events (lines 305-367).  At `indent == 0` the
preamble comes first.  A directory dict gets a heading at level
`min(indent + 2, 6)`; when its `items` key is present and nonempty the
table header, one row per item, a blank line, and then the recursion
into each child with `item["type"] == "directory" and "items" in item`
follow.  A truncated directory dict (no `items` key) gets a heading
only.  The recursive calls carry no `system_info` (child dicts never
have that key). -/
def write_markdown_format : Node → Option SysInfo → Nat → List MdEv
  | data, sysInfo, indent =>
    (if indent = 0 then mdPrelude data sysInfo else []) ++
    match data with
    | .dir name _ items _ _ =>
      .heading (min (indent + 2) 6) name ::
        (if items.isEmpty then [] else
          .tableHead :: (items.map mdRow ++ (.write "\n" ::
            mdChildren items (indent + 1))))
    | .truncatedDir name _ => [.heading (min (indent + 2) 6) name]
    | .depthGuardDir name => [.heading (min (indent + 2) 6) name]
    | .file name path size modified perms owner group =>
      mdFileBlock name path size modified perms owner group
    | .error name path err => mdErrorBlock name path err
/-- The recursion loop at lines 348-350: one heading+table block per
child directory that carries `items`, in listing order. -/
def mdChildren : List Node → Nat → List MdEv
  | [], _ => []
  | item :: rest, indent =>
    (if isDirWithItems item then write_markdown_format item none indent
     else []) ++ mdChildren rest indent
end

/-! ## Structured-data renderer: `json.dump(data, f, ensure_ascii=False,
indent=2)`

`J` is the JSON document; `renderJ` reproduces the text layout of
Python's `json.dump` with `indent=2` (ensure_ascii off: only `"`, `\`
and control characters are escaped, everything else — in particular
non-ASCII text — is written verbatim).  `parseVal` is a deserializer,
used to state the round-trip property. -/

/-- A JSON document as emitted for a `Node` tree: strings, non-negative
integers, booleans, arrays, objects. -/
inductive J where
  | str (s : String)
  | num (n : Nat)
  | bool (b : Bool)
  | arr (elems : List J)
  | obj (fields : List (String × J))

mutual
/-- The JSON document of a node dict: the keys in insertion order,
exactly as the walker builds the dicts. -/
def Node.toJson : Node → J
  | .dir name path items c t =>
    .obj [("type", .str "directory"), ("name", .str name),
          ("path", .str path), ("items", .arr (Node.toJsonList items)),
          ("item_count", .num c), ("scan_time", .str t)]
  | .truncatedDir name path =>
    .obj [("type", .str "directory"), ("name", .str name),
          ("path", .str path), ("truncated", .bool true)]
  | .depthGuardDir name =>
    .obj [("type", .str "directory"), ("name", .str name),
          ("truncated", .bool true)]
  | .file name path size modified perms owner group =>
    .obj [("type", .str "file"), ("name", .str name), ("path", .str path),
          ("size", .num size), ("modified", .str modified),
          ("permissions", .str perms), ("owner", .num owner),
          ("group", .num group)]
  | .error name path err =>
    .obj ([("type", .str "error"), ("name", .str name),
           ("path", .str path)] ++
      (match err with | some m => [("error", .str m)] | none => []))
/-- `Node.toJson` over a children list. -/
def Node.toJsonList : List Node → List J
  | [] => []
  | x :: xs => Node.toJson x :: Node.toJsonList xs
end

/-- Lower-case hexadecimal digit. -/
def hexDigitChar (n : Nat) : Char :=
  if n < 10 then digitChar n else Char.ofNat (87 + n)

/-- The escaping of one character performed by Python's JSON encoder
with `ensure_ascii=False`: only `"`, `\` and control characters
(< 0x20) are escaped — the named escapes for `\b \t \n \f \r`, a
`\u00xx` escape for the remaining controls — and every other character
(including all non-ASCII) is written as itself. -/
def escapeChar (c : Char) : List Char :=
  if c = '\\' then ['\\', '\\']
  else if c = '"' then ['\\', '"']
  else if c = Char.ofNat 8 then ['\\', 'b']
  else if c = Char.ofNat 12 then ['\\', 'f']
  else if c = '\n' then ['\\', 'n']
  else if c = '\r' then ['\\', 'r']
  else if c = '\t' then ['\\', 't']
  else if c.toNat < 32 then
    ['\\', 'u', '0', '0', hexDigitChar (c.toNat / 16),
     hexDigitChar (c.toNat % 16)]
  else [c]

/-- `escapeChar` over a character list. -/
def escapeList : List Char → List Char
  | [] => []
  | c :: cs => escapeChar c ++ escapeList cs

/-- `n` space characters (the `indent=2` padding). -/
def spacesChars (n : Nat) : List Char := List.replicate n ' '

mutual
/-- The characters `json.dump(value, f, ensure_ascii=False, indent=2)`
writes for a value sitting at indentation `ind`: containers open with a
newline, indent their members by two more spaces, separate them with
`",\n"`, use `": "` after keys, and close on a fresh line at the old
indentation; empty containers collapse to `[]` / `{}`. -/
def renderJ : J → Nat → List Char
  | .str s, _ => '"' :: escapeList s.data ++ ['"']
  | .num n, _ => natDigits n
  | .bool true, _ => ['t', 'r', 'u', 'e']
  | .bool false, _ => ['f', 'a', 'l', 's', 'e']
  | .arr [], _ => ['[', ']']
  | .arr (x :: xs), ind =>
    '[' :: '\n' :: spacesChars (ind + 2) ++ renderJ x (ind + 2) ++
      renderElems xs (ind + 2) ++ '\n' :: spacesChars ind ++ [']']
  | .obj [], _ => ['{', '}']
  | .obj (f :: fs), ind =>
    '{' :: '\n' :: spacesChars (ind + 2) ++ renderField f (ind + 2) ++
      renderFields fs (ind + 2) ++ '\n' :: spacesChars ind ++ ['}']
/-- The `",\n" ++ indent` separated tail elements of a nonempty array. -/
def renderElems : List J → Nat → List Char
  | [], _ => []
  | x :: xs, ind =>
    ',' :: '\n' :: spacesChars ind ++ renderJ x ind ++ renderElems xs ind
/-- One `"key": value` member. -/
def renderField : String × J → Nat → List Char
  | (k, v), ind => '"' :: escapeList k.data ++ '"' :: ':' :: ' ' ::
      renderJ v ind
/-- The `",\n" ++ indent` separated tail members of a nonempty object. -/
def renderFields : List (String × J) → Nat → List Char
  | [], _ => []
  | f :: fs, ind =>
    ',' :: '\n' :: spacesChars ind ++ renderField f ind ++
      renderFields fs ind
end

/-- The document text of the structured-data renderer. -/
def jsonText (data : Node) : String := ⟨renderJ (Node.toJson data) 0⟩

/-! ### A JSON deserializer (for the round-trip statement) -/

/-- Skip blanks (space, newline, carriage return, tab). -/
def skipWs : List Char → List Char
  | [] => []
  | c :: rest =>
    if c = ' ' ∨ c = '\n' ∨ c = '\r' ∨ c = '\t' then skipWs rest
    else c :: rest

/-- Read a run of decimal digits into `acc`. -/
def parseNatAux : List Char → Nat → Nat × List Char
  | [], acc => (acc, [])
  | c :: rest, acc =>
    if c.isDigit then parseNatAux rest (acc * 10 + (c.toNat - 48))
    else (acc, c :: rest)

/-- Value of one hexadecimal digit. -/
def hexVal (c : Char) : Option Nat :=
  if '0' ≤ c ∧ c ≤ '9' then some (c.toNat - 48)
  else if 'a' ≤ c ∧ c ≤ 'f' then some (c.toNat - 87)
  else if 'A' ≤ c ∧ c ≤ 'F' then some (c.toNat - 55)
  else none

mutual
/-- Read a string body up to the closing `"`, undoing the escapes; `acc`
holds the already-read characters in reverse. -/
def parseStringBody : List Char → List Char → Option (String × List Char)
  | [], _ => none
  | c :: rest, acc =>
    if c = '"' then some (⟨acc.reverse⟩, rest)
    else if c = '\\' then parseEsc rest acc
    else parseStringBody rest (c :: acc)
/-- Read the character following a `\` inside a string. -/
def parseEsc : List Char → List Char → Option (String × List Char)
  | [], _ => none
  | e :: rest, acc =>
    if e = '"' ∨ e = '\\' ∨ e = '/' then parseStringBody rest (e :: acc)
    else if e = 'b' then parseStringBody rest (Char.ofNat 8 :: acc)
    else if e = 'f' then parseStringBody rest (Char.ofNat 12 :: acc)
    else if e = 'n' then parseStringBody rest ('\n' :: acc)
    else if e = 'r' then parseStringBody rest ('\r' :: acc)
    else if e = 't' then parseStringBody rest ('\t' :: acc)
    else if e = 'u' then
      match rest with
      | h1 :: h2 :: h3 :: h4 :: rest2 =>
        match hexVal h1, hexVal h2, hexVal h3, hexVal h4 with
        | some v1, some v2, some v3, some v4 =>
          parseStringBody rest2
            (Char.ofNat (((v1 * 16 + v2) * 16 + v3) * 16 + v4) :: acc)
        | _, _, _, _ => none
      | _ => none
    else none
end

mutual
/-- Read one JSON value (fuel bounds the nesting, see `sizeJ`). -/
def parseVal : Nat → List Char → Option (J × List Char)
  | 0, _ => none
  | fuel + 1, l =>
    match skipWs l with
    | [] => none
    | c :: rest =>
      if c = '"' then
        (parseStringBody rest []).map fun p => (J.str p.1, p.2)
      else if c = 't' then
        match rest with
        | 'r' :: 'u' :: 'e' :: r => some (J.bool true, r)
        | _ => none
      else if c = 'f' then
        match rest with
        | 'a' :: 'l' :: 's' :: 'e' :: r => some (J.bool false, r)
        | _ => none
      else if c = '[' then
        match skipWs rest with
        | ']' :: r => some (J.arr [], r)
        | _ => (parseElems fuel rest).map fun p => (J.arr p.1, p.2)
      else if c = '{' then
        match skipWs rest with
        | '}' :: r => some (J.obj [], r)
        | _ => (parseFields fuel rest).map fun p => (J.obj p.1, p.2)
      else if c.isDigit then
        let p := parseNatAux (c :: rest) 0
        some (J.num p.1, p.2)
      else none
/-- Read the members of a nonempty array, after the `[`. -/
def parseElems : Nat → List Char → Option (List J × List Char)
  | 0, _ => none
  | fuel + 1, l =>
    match parseVal fuel l with
    | none => none
    | some (j, r) =>
      match skipWs r with
      | ',' :: r2 =>
        match parseElems fuel r2 with
        | none => none
        | some (xs, r3) => some (j :: xs, r3)
      | ']' :: r2 => some ([j], r2)
      | _ => none
/-- Read the members of a nonempty object, after the `{`. -/
def parseFields : Nat → List Char → Option (List (String × J) × List Char)
  | 0, _ => none
  | fuel + 1, l =>
    match skipWs l with
    | k :: r0 =>
      if k = '"' then
        match parseStringBody r0 [] with
        | none => none
        | some (key, r1) =>
          match skipWs r1 with
          | ':' :: r2 =>
            match parseVal fuel r2 with
            | none => none
            | some (v, r3) =>
              match skipWs r3 with
              | ',' :: r4 =>
                match parseFields fuel r4 with
                | none => none
                | some (fs, r5) => some ((key, v) :: fs, r5)
              | '}' :: r4 => some ([(key, v)], r4)
              | _ => none
          | _ => none
      else none
    | [] => none
end

/-- Deserialize a whole document: one value, then only blanks. -/
def parseJson (s : String) : Option J :=
  match parseVal (s.data.length + 1) s.data with
  | some (j, rest) => if skipWs rest = [] then some j else none
  | none => none

/-! ## Output sink (`save_results`) -/

/-- ASCII lower-casing of one character (`str.lower()` on the config
value, line 269; format identifiers are ASCII). -/
def lowerChar (c : Char) : Char :=
  if 'A' ≤ c ∧ c ≤ 'Z' then Char.ofNat (c.toNat + 32) else c

/-- `s.lower()`. -/
def strLower (s : String) : String := ⟨s.data.map lowerChar⟩

/-- The sequence of strings the selected renderer writes to the opened
file, or `none` for an unrecognized format (the `raise ValueError`
branch, line 281).  `json` writes the single `json.dump` document;
`txt` and `md` write their renderers' write calls in order. -/
def renderChunks (output_format : String) (data : Node)
    (sysInfo : Option SysInfo) : Option (List String) :=
  if output_format = "json" then some [jsonText data]
  else if output_format = "txt" then some (write_text_format data 0)
  else if output_format = "md" then
    some ((write_markdown_format data sysInfo 0).map MdEv.text)
  else none

/-- `NASWalker.save_results(data, output_file)` (lines 254-288).
`output_format` is `config['SCAN']['output_format']` (lower-cased by the
source).  `writeFault = some k` models the k-th write call raising (a
write fault); the surrounding `except Exception` turns any raised error
— unsupported format or write fault — into the return value `False`.
The second component is what ends up in the file: everything written
before the failure stays (nothing is rolled back). -/
def save_results (output_format : String) (data : Node)
    (sysInfo : Option SysInfo) (writeFault : Option Nat) :
    Bool × List String :=
  match renderChunks (strLower output_format) data sysInfo with
  | none => (false, [])
  | some chunks =>
    match writeFault with
    | none => (true, chunks)
    | some k =>
      if k < chunks.length then (false, chunks.take k) else (true, chunks)

/-! ## Helper form of the walker's entry loop, and concrete scenarios -/

/-- `processEntry` with the explicit fuel of `scanFuel`: the entry loop
of `scanFuel env p m d (fuel+1)` is literally
`entries.filterMap (processEntryFuel env p m d fuel)` (definitionally,
see `scanFuel_succ`). -/
def processEntryFuel (env : Env) (remote_path : String) (max_depth : Nat)
    (current_depth : Nat) (fuel : Nat) (item : Entry) : Option Node :=
  if item.filename = "." ∨ item.filename = ".." then none
  else
    let item_path := pathJoin remote_path item.filename
    some <| match item.attrs with
      | .error f => Node.error item.filename item_path (some (faultMsg f))
      | .ok a =>
        if S_ISDIR a.st_mode then
          if current_depth < max_depth then
            scanFuel env item_path max_depth (current_depth + 1) fuel
          else
            Node.truncatedDir item.filename item_path
        else
          Node.file item.filename item_path a.st_size a.st_mtime_iso
            (octLast3 a.st_mode) a.st_uid a.st_gid

/-- Metadata of a directory entry (`st_mode = 0o40755`). -/
def dirAttrs : Attrs := ⟨16877, 4096, "2024-01-01T00:00:00", 0, 0⟩

/-- Metadata of a regular-file entry of the given size
(`st_mode = 0o100644`). -/
def fileAttrs (sz : Nat) : Attrs := ⟨33188, sz, "2024-01-01T00:00:00", 0, 0⟩

/-- The fault-isolation scenario: `/root` holds directories `A` and `B`
and file `g.log`; listing `/root/B` raises `PermissionError`; inside
`/root/A`, reading the metadata of entry `bad` raises a generic fault
while `f.txt` is fine. -/
def envIso : Env where
  list p :=
    if p = "/root" then
      .ok [⟨"A", .ok dirAttrs⟩, ⟨"B", .ok dirAttrs⟩,
           ⟨"g.log", .ok (fileAttrs 0)⟩]
    else if p = "/root/A" then
      .ok [⟨"bad", .error (.other "stat failed")⟩,
           ⟨"f.txt", .ok (fileAttrs 2097152)⟩]
    else if p = "/root/B" then .error .permission
    else .error (.other "unreachable")
  now _ := "T"

/-- A one-subdirectory root, scanned with `max_depth = 0` in the depth
counterexample. -/
def envC1 : Env where
  list p :=
    if p = "/root" then .ok [⟨"A", .ok dirAttrs⟩]
    else .error (.other "unreachable")
  now _ := "T"

/-- A lister whose every directory is empty (root-name witness). -/
def envEmpty : Env where
  list _ := .ok []
  now _ := "T"

/-- The indented-text scenario tree: `root` containing directory `A`
(with `f.txt`, 2 097 152 bytes) and file `g.log` (0 bytes). -/
def tree3 : Node :=
  .dir "root" "/root"
    [.dir "A" "/root/A"
       [.file "f.txt" "/root/A/f.txt" 2097152 "2024-01-01T00:00:00"
          "644" 0 0] 1 "T",
     .file "g.log" "/root/g.log" 0 "2024-01-01T00:00:00" "644" 0 0]
    2 "T"

/-- Report-renderer counterexample tree: `root` with a single childless
subdirectory `A`. -/
def treeC4 : Node := .dir "root" "/r" [.dir "A" "/r/A" [] 0 "T"] 1 "T"

/-! ## Proof-layer definitions for the JSON round trip -/

mutual
/-- Nesting size of a document: the fuel needed by the deserializer. -/
def szJ : J → Nat
  | .str _ => 1
  | .num _ => 1
  | .bool _ => 1
  | .arr xs => szL xs + 1
  | .obj fs => szF fs + 1
/-- `szJ` over array members. -/
def szL : List J → Nat
  | [] => 1
  | x :: xs => szJ x + szL xs + 1
/-- `szJ` over object members. -/
def szF : List (String × J) → Nat
  | [] => 1
  | (_, v) :: fs => szJ v + szF fs + 1
end

/-- Reference form of the decimal digits (recursion on `n`). -/
def natDigitsSpec (n : Nat) : List Char :=
  if n < 10 then [digitChar n]
  else natDigitsSpec (n / 10) ++ [digitChar (n % 10)]
decreasing_by exact Nat.div_lt_self (by omega) (by omega)

/-- The list does not start with a decimal digit. -/
def noDigitHead (l : List Char) : Prop :=
  ∀ c, l.head? = some c → c.isDigit = false

/-! # Theorems -/

/-! ## Source-shaped equations of the walker -/

theorem scanFuel_succ (env : Env) (p : String) (m d fuel : Nat) :
    scanFuel env p m d (fuel + 1) =
      match env.list p with
      | .error f => .error (basename p) p (some (faultMsg f))
      | .ok entries =>
        let items := entries.filterMap (processEntryFuel env p m d fuel)
        .dir (if basename p = "" then "/" else basename p) p items
          items.length (env.now p) := rfl

theorem scan_directory_guard (env : Env) (p : String) {m d : Nat}
    (h : m < d) :
    scan_directory env p m d = .depthGuardDir (basename p) := by
  unfold scan_directory
  have : m + 1 - d = 0 := by omega
  rw [this]
  rfl

theorem scan_directory_listing_error (env : Env) (p : String) {m d : Nat}
    (hd : d ≤ m) {f : Fault} (h : env.list p = .error f) :
    scan_directory env p m d = .error (basename p) p (some (faultMsg f)) := by
  unfold scan_directory
  have : m + 1 - d = (m - d) + 1 := by omega
  rw [this, scanFuel_succ, h]

theorem processEntry_eq_fuel (env : Env) (p : String) {m d : Nat}
    (hd : d ≤ m) :
    processEntry env p m d = processEntryFuel env p m d (m - d) := by
  funext item
  unfold processEntry processEntryFuel scan_directory
  have : m + 1 - (d + 1) = m - d := by omega
  rw [this]

theorem scan_directory_listing_ok (env : Env) (p : String) {m d : Nat}
    (hd : d ≤ m) {entries : List Entry} (h : env.list p = .ok entries) :
    scan_directory env p m d =
      let items := entries.filterMap (processEntry env p m d)
      .dir (if basename p = "" then "/" else basename p) p items
        items.length (env.now p) := by
  unfold scan_directory
  have hf : m + 1 - d = (m - d) + 1 := by omega
  rw [hf, scanFuel_succ, h, processEntry_eq_fuel env p hd]

/-! ## Tree traversal helpers -/

theorem mem_allNodesList {x : Node} : ∀ {l : List Node},
    x ∈ allNodesList l ↔ ∃ y ∈ l, x ∈ allNodes y := by
  intro l
  induction l with
  | nil => simp [allNodesList]
  | cons a l ih => simp [allNodesList, List.mem_append, ih]

theorem mem_nodesAtDepthList {x : Node} {k : Nat} : ∀ {l : List Node},
    x ∈ nodesAtDepthList l k ↔ ∃ y ∈ l, x ∈ nodesAtDepth y k := by
  intro l
  induction l with
  | nil => simp [nodesAtDepthList]
  | cons a l ih => simp [nodesAtDepthList, List.mem_append, ih]

/-! ## C8: `item_count` never drifts from `items` -/

theorem scanFuel_item_count :
    ∀ (fuel : Nat) (env : Env) (p : String) (m d : Nat) (x : Node),
    x ∈ allNodes (scanFuel env p m d fuel) →
    ∀ n pth its c t, x = .dir n pth its c t → c = its.length := by
  intro fuel
  induction fuel with
  | zero =>
    intro env p m d x hx n pth its c t hdir
    simp [scanFuel, allNodes] at hx
    subst hx
    cases hdir
  | succ fuel ih =>
    intro env p m d x hx n pth its c t hdir
    rw [scanFuel_succ] at hx
    cases hls : env.list p with
    | error f =>
      rw [hls] at hx
      simp [allNodes] at hx
      subst hx
      cases hdir
    | ok entries =>
      rw [hls] at hx
      simp only [allNodes, List.mem_cons] at hx
      rcases hx with rfl | hx
      · injection hdir with h1 h2 h3 h4 h5
        subst h3
        omega
      · rcases mem_allNodesList.mp hx with ⟨y, hy, hxy⟩
        rcases List.mem_filterMap.mp hy with ⟨item, hitem, hpe⟩
        simp only [processEntryFuel] at hpe
        split at hpe
        · cases hpe
        · injection hpe with hy2
          cases hattr : item.attrs with
          | error f =>
            rw [hattr] at hy2
            simp only at hy2
            subst hy2
            simp [allNodes] at hxy
            subst hxy
            cases hdir
          | ok a =>
            rw [hattr] at hy2
            simp only at hy2
            split at hy2
            · split at hy2
              · subst hy2
                exact ih env _ m (d + 1) x hxy n pth its c t hdir
              · subst hy2
                simp [allNodes] at hxy
                subst hxy
                cases hdir
            · subst hy2
              simp [allNodes] at hxy
              subst hxy
              cases hdir

/-! ## C10: the entry-guard node is unreachable from a depth-0 call -/

theorem scanFuel_no_guard :
    ∀ (fuel : Nat) (env : Env) (p : String) (m d : Nat), d ≤ m →
    fuel = m + 1 - d →
    ∀ x ∈ allNodes (scanFuel env p m d fuel), ∀ nm, x ≠ .depthGuardDir nm := by
  intro fuel
  induction fuel with
  | zero =>
    intro env p m d hdm hfuel
    omega
  | succ fuel ih =>
    intro env p m d hdm hfuel x hx nm
    rw [scanFuel_succ] at hx
    cases hls : env.list p with
    | error f =>
      rw [hls] at hx
      simp [allNodes] at hx
      subst hx
      intro h
      cases h
    | ok entries =>
      rw [hls] at hx
      simp only [allNodes, List.mem_cons] at hx
      rcases hx with rfl | hx
      · intro h
        cases h
      · rcases mem_allNodesList.mp hx with ⟨y, hy, hxy⟩
        rcases List.mem_filterMap.mp hy with ⟨item, hitem, hpe⟩
        simp only [processEntryFuel] at hpe
        split at hpe
        · cases hpe
        · injection hpe with hy2
          cases hattr : item.attrs with
          | error f =>
            rw [hattr] at hy2
            simp only at hy2
            subst hy2
            simp [allNodes] at hxy
            subst hxy
            intro h
            cases h
          | ok a =>
            rw [hattr] at hy2
            simp only at hy2
            split at hy2
            · split at hy2
              · next hlt =>
                subst hy2
                exact ih env _ m (d + 1) (by omega) (by omega) x hxy nm
              · subst hy2
                simp [allNodes] at hxy
                subst hxy
                intro h
                cases h
            · subst hy2
              simp [allNodes] at hxy
              subst hxy
              intro h
              cases h

/-! ## C1: depth bound and truncation depth -/

theorem nodesAtDepthList_eq_nil {k : Nat} : ∀ {l : List Node},
    (∀ y ∈ l, nodesAtDepth y k = []) → nodesAtDepthList l k = [] := by
  intro l
  induction l with
  | nil => intro _; rfl
  | cons a l ih =>
    intro h
    show nodesAtDepth a k ++ nodesAtDepthList l k = []
    rw [h a (List.mem_cons_self a l), ih fun y hy => h y (List.mem_cons_of_mem a hy)]
    rfl

theorem scanFuel_depth_bound :
    ∀ (fuel : Nat) (env : Env) (p : String) (m d : Nat), d ≤ m →
    fuel = m + 1 - d →
    (∀ k, m + 1 - d < k → nodesAtDepth (scanFuel env p m d fuel) k = []) ∧
    (∀ x, x ∈ nodesAtDepth (scanFuel env p m d fuel) (m + 1 - d) →
      x.typeOf = "directory" → ∃ nm pth, x = .truncatedDir nm pth) := by
  intro fuel
  induction fuel with
  | zero =>
    intro env p m d hdm hfuel
    omega
  | succ fuel ih =>
    intro env p m d hdm hfuel
    rw [scanFuel_succ]
    cases hls : env.list p with
    | error f =>
      constructor
      · intro k hk
        match k, hk with
        | k' + 1, _ => rfl
      · intro x hx
        have h1 : m + 1 - d = (m - d) + 1 := by omega
        rw [h1] at hx
        simp [nodesAtDepth] at hx
    | ok entries =>
      constructor
      · intro k hk
        match k, hk with
        | k' + 1, hk =>
          show nodesAtDepthList _ k' = []
          apply nodesAtDepthList_eq_nil
          intro y hy
          rcases List.mem_filterMap.mp hy with ⟨item, hitem, hpe⟩
          simp only [processEntryFuel] at hpe
          split at hpe
          · cases hpe
          · injection hpe with hy2
            cases hattr : item.attrs with
            | error f =>
              rw [hattr] at hy2
              simp only at hy2
              subst hy2
              match k', (show 1 ≤ k' by omega) with
              | k'' + 1, _ => rfl
            | ok a =>
              rw [hattr] at hy2
              simp only at hy2
              split at hy2
              · split at hy2
                · next hlt =>
                  subst hy2
                  exact (ih env (pathJoin p item.filename) m (d + 1) (by omega) (by omega)).1 k'
                    (by omega)
                · subst hy2
                  match k', (show 1 ≤ k' by omega) with
                  | k'' + 1, _ => rfl
              · subst hy2
                match k', (show 1 ≤ k' by omega) with
                | k'' + 1, _ => rfl
      · intro x hx htype
        have h1 : m + 1 - d = (m - d) + 1 := by omega
        rw [h1] at hx
        replace hx : x ∈ nodesAtDepthList _ (m - d) := hx
        rcases mem_nodesAtDepthList.mp hx with ⟨y, hy, hxy⟩
        rcases List.mem_filterMap.mp hy with ⟨item, hitem, hpe⟩
        simp only [processEntryFuel] at hpe
        split at hpe
        · cases hpe
        · injection hpe with hy2
          cases hattr : item.attrs with
          | error f =>
            rw [hattr] at hy2
            simp only at hy2
            subst hy2
            cases hmd : m - d with
            | zero =>
              rw [hmd] at hxy
              simp [nodesAtDepth] at hxy
              subst hxy
              simp [Node.typeOf] at htype
            | succ j =>
              rw [hmd] at hxy
              simp [nodesAtDepth] at hxy
          | ok a =>
            rw [hattr] at hy2
            simp only at hy2
            split at hy2
            · split at hy2
              · next hlt =>
                subst hy2
                refine (ih env (pathJoin p item.filename) m (d + 1) (by omega) (by omega)).2 x ?_ htype
                rw [show m + 1 - (d + 1) = m - d by omega]
                exact hxy
              · next hnlt =>
                subst hy2
                have hmd : m - d = 0 := by omega
                rw [hmd] at hxy
                simp [nodesAtDepth] at hxy
                subst hxy
                exact ⟨item.filename, pathJoin p item.filename, rfl⟩
            · subst hy2
              cases hmd : m - d with
              | zero =>
                rw [hmd] at hxy
                simp [nodesAtDepth] at hxy
                subst hxy
                simp [Node.typeOf] at htype
              | succ j =>
                rw [hmd] at hxy
                simp [nodesAtDepth] at hxy

/-- **C8** (confirmed): for every tree produced by `scan_directory`, in
every node carrying a children sequence (`items`) the recorded
`item_count` equals the length of that sequence. -/
theorem C8_item_count_eq_length (env : Env) (p : String) (m d : Nat)
    (x : Node) (hx : x ∈ allNodes (scan_directory env p m d))
    (its : List Node) (hits : x.itemsOpt = some its) :
    x.itemCountOpt = some its.length := by
  cases x with
  | dir n pth items c t =>
    have hits2 : items = its := by simpa [Node.itemsOpt] using hits
    subst hits2
    have hc := scanFuel_item_count _ env p m d _ hx n pth items c t rfl
    simp [Node.itemCountOpt, hc]
  | truncatedDir a b => simp [Node.itemsOpt] at hits
  | depthGuardDir a => simp [Node.itemsOpt] at hits
  | file a b sz mo pe ow gr => simp [Node.itemsOpt] at hits
  | error a b e => simp [Node.itemsOpt] at hits

/-- Witness for `C8_item_count_eq_length`: the root of the concrete
`envIso` scan has `item_count = 3` and three children. -/
theorem C8_item_count_eq_length_witness :
    (Node.dir "root" "/root"
        [.dir "A" "/root/A"
           [.error "bad" "/root/A/bad" (some "stat failed"),
            .file "f.txt" "/root/A/f.txt" 2097152 "2024-01-01T00:00:00"
              "644" 0 0] 2 "T",
         .error "B" "/root/B" (some "权限不足"),
         .file "g.log" "/root/g.log" 0 "2024-01-01T00:00:00" "644" 0 0]
        3 "T") ∈ allNodes (scan_directory envIso "/root" 5 0) ∧
    Node.itemCountOpt
      (Node.dir "root" "/root"
        [.dir "A" "/root/A"
           [.error "bad" "/root/A/bad" (some "stat failed"),
            .file "f.txt" "/root/A/f.txt" 2097152 "2024-01-01T00:00:00"
              "644" 0 0] 2 "T",
         .error "B" "/root/B" (some "权限不足"),
         .file "g.log" "/root/g.log" 0 "2024-01-01T00:00:00" "644" 0 0]
        3 "T") = some 3 := by
  have hmem :
      (Node.dir "root" "/root"
        [.dir "A" "/root/A"
           [.error "bad" "/root/A/bad" (some "stat failed"),
            .file "f.txt" "/root/A/f.txt" 2097152 "2024-01-01T00:00:00"
              "644" 0 0] 2 "T",
         .error "B" "/root/B" (some "权限不足"),
         .file "g.log" "/root/g.log" 0 "2024-01-01T00:00:00" "644" 0 0]
        3 "T") ∈ allNodes (scan_directory envIso "/root" 5 0) :=
    List.Mem.head _
  exact ⟨hmem, C8_item_count_eq_length envIso "/root" 5 0 _ hmem _ rfl⟩

/-- **C10** (confirmed): starting from depth 0, the pathless node built
by the entry guard `current_depth > max_depth` never appears in the
result, so every truncated directory node was built by its parent and
carries exactly `type`, `name`, `path`, `truncated` — no `items`,
`item_count` or `scan_time`. -/
theorem C10_truncated_shape (env : Env) (p : String) (m : Nat) (x : Node)
    (hx : x ∈ allNodes (scan_directory env p m 0)) :
    (∀ nm, x ≠ .depthGuardDir nm) ∧
    (x.truncatedOpt = some true →
      ∃ nm pth, x = .truncatedDir nm pth ∧ x.pathOpt = some pth ∧
        x.itemsOpt = none ∧ x.itemCountOpt = none ∧
        x.scanTimeOpt = none) := by
  have hng := scanFuel_no_guard (m + 1 - 0) env p m 0 (Nat.zero_le m) rfl x hx
  refine ⟨hng, ?_⟩
  intro htr
  cases x with
  | truncatedDir nm pth => exact ⟨nm, pth, rfl, rfl, rfl, rfl, rfl⟩
  | depthGuardDir nm => exact absurd rfl (hng nm)
  | dir n pth its c t => simp [Node.truncatedOpt] at htr
  | file a b sz mo pe ow gr => simp [Node.truncatedOpt] at htr
  | error a b e => simp [Node.truncatedOpt] at htr

/-- Witness for `C10_truncated_shape`: the truncated node of the
`max_depth = 0` scan has exactly the parent-built shape. -/
theorem C10_truncated_shape_witness :
    (Node.truncatedDir "A" "/root/A")
        ∈ allNodes (scan_directory envC1 "/root" 0 0) ∧
    (∀ nm, (Node.truncatedDir "A" "/root/A") ≠ .depthGuardDir nm) ∧
    (∃ nm pth, (Node.truncatedDir "A" "/root/A") = .truncatedDir nm pth ∧
      Node.pathOpt (.truncatedDir "A" "/root/A") = some pth ∧
      Node.itemsOpt (.truncatedDir "A" "/root/A") = none ∧
      Node.itemCountOpt (.truncatedDir "A" "/root/A") = none ∧
      Node.scanTimeOpt (.truncatedDir "A" "/root/A") = none) := by
  have hmem :
      (Node.truncatedDir "A" "/root/A")
        ∈ allNodes (scan_directory envC1 "/root" 0 0) := by
    have h : allNodes (scan_directory envC1 "/root" 0 0) =
        [.dir "root" "/root" [.truncatedDir "A" "/root/A"] 1 "T",
         .truncatedDir "A" "/root/A"] := rfl
    rw [h]
    exact List.Mem.tail _ (List.Mem.head _)
  have h := C10_truncated_shape envC1 "/root" 0 _ hmem
  exact ⟨hmem, h.1, h.2 rfl⟩

/-- **C1 (amended)**: for every lister behaviour and every
`maxDepth ≥ 0`, no node of `scan_directory(path, maxDepth, 0)` sits
deeper than `maxDepth + 1`, and every directory node at exactly depth
`maxDepth + 1` is a parent-built truncated directory (`truncated =
true`) with no children sequence.  (The claim as frozen places the
truncated directories at depth `maxDepth`; see `C1_counterexample`.) -/
theorem C1_depth_bound (env : Env) (p : String) (m : Nat) :
    (∀ k, m + 1 < k → nodesAtDepth (scan_directory env p m 0) k = []) ∧
    (∀ x, x ∈ nodesAtDepth (scan_directory env p m 0) (m + 1) →
      x.typeOf = "directory" →
      ∃ nm pth, x = .truncatedDir nm pth ∧ x.truncatedOpt = some true ∧
        x.itemsOpt = none) := by
  have h := scanFuel_depth_bound (m + 1 - 0) env p m 0 (Nat.zero_le m) rfl
  constructor
  · intro k hk
    exact h.1 k hk
  · intro x hx htype
    obtain ⟨nm, pth, rfl⟩ := h.2 x hx htype
    exact ⟨nm, pth, rfl, rfl, rfl⟩

/-- **C1 counterexample**: with `maxDepth = 0` the root itself is a
Directory at exactly depth `maxDepth` that is not truncated and has a
child; the truncated directory sits at depth `maxDepth + 1 = 1`
instead. -/
theorem C1_counterexample :
    nodesAtDepth (scan_directory envC1 "/root" 0 0) 0 =
      [.dir "root" "/root" [.truncatedDir "A" "/root/A"] 1 "T"] ∧
    Node.typeOf
      (.dir "root" "/root" [.truncatedDir "A" "/root/A"] 1 "T") =
      "directory" ∧
    Node.truncatedOpt
      (.dir "root" "/root" [.truncatedDir "A" "/root/A"] 1 "T") ≠
      some true ∧
    Node.itemsOpt
      (.dir "root" "/root" [.truncatedDir "A" "/root/A"] 1 "T") =
      some [.truncatedDir "A" "/root/A"] ∧
    nodesAtDepth (scan_directory envC1 "/root" 0 0) 1 =
      [.truncatedDir "A" "/root/A"] := by
  refine ⟨rfl, rfl, ?_, rfl, rfl⟩
  intro h
  cases h

/-- Witness for `C1_depth_bound`: the concrete `maxDepth = 0` scan. -/
theorem C1_depth_bound_witness :
    ((Node.truncatedDir "A" "/root/A")
        ∈ nodesAtDepth (scan_directory envC1 "/root" 0 0) (0 + 1) ∧
      Node.typeOf (Node.truncatedDir "A" "/root/A") = "directory" ∧
      2 > 0 + 1) ∧
    nodesAtDepth (scan_directory envC1 "/root" 0 0) 2 = [] ∧
    (∃ nm pth, Node.truncatedDir "A" "/root/A" = .truncatedDir nm pth ∧
      Node.truncatedOpt (Node.truncatedDir "A" "/root/A") = some true ∧
      Node.itemsOpt (Node.truncatedDir "A" "/root/A") = none) := by
  have hmem :
      (Node.truncatedDir "A" "/root/A")
        ∈ nodesAtDepth (scan_directory envC1 "/root" 0 0) (0 + 1) := by
    have h : nodesAtDepth (scan_directory envC1 "/root" 0 0) (0 + 1) =
        [.truncatedDir "A" "/root/A"] := rfl
    rw [h]
    exact List.Mem.head _
  exact ⟨⟨hmem, rfl, by omega⟩,
    (C1_depth_bound envC1 "/root" 0).1 2 (by omega),
    (C1_depth_bound envC1 "/root" 0).2 _ hmem rfl⟩

/-- **C2 counterexample**: the permission-denied Error node produced by
the code carries the source's message literal `"权限不足"`, not the text
`"permission denied"` stated by the claim. -/
theorem C2_counterexample :
    Node.itemsOpt (scan_directory envIso "/root" 5 0) =
      some
        [.dir "A" "/root/A"
           [.error "bad" "/root/A/bad" (some "stat failed"),
            .file "f.txt" "/root/A/f.txt" 2097152 "2024-01-01T00:00:00"
              "644" 0 0] 2 "T",
         .error "B" "/root/B" (some "权限不足"),
         .file "g.log" "/root/g.log" 0 "2024-01-01T00:00:00" "644" 0 0] ∧
    Node.error "B" "/root/B" (some "权限不足") ≠
      Node.error "B" "/root/B" (some "permission denied") := by
  refine ⟨rfl, ?_⟩
  intro h
  injection h with h1 h2 h3
  injection h3 with h4
  exact absurd h4 (by decide)

/-- **C2 (amended)**: `scan_directory` is total past lister faults: a
failing listing of the path itself yields an Error node
`{type, name, path, error}` whose message is the fixed permission text
`"权限不足"` for the permission-denied condition and the fault's own
text otherwise; a fault on a single entry yields an Error node for that
entry while the remaining siblings are processed normally — concretely,
the permission fault on `/root/B` yields
`{name: "B", path: "/root/B", error: "权限不足"}` while `/root/A`
(including its own per-entry fault isolation) and `/root/g.log` stay
normal nodes. -/
theorem C2_fault_isolation :
    (∀ (env : Env) (p : String) (m d : Nat) (f : Fault), d ≤ m →
      env.list p = .error f →
      scan_directory env p m d =
        .error (basename p) p (some (faultMsg f))) ∧
    faultMsg .permission = "权限不足" ∧
    (∀ msg, faultMsg (.other msg) = msg) ∧
    scan_directory envIso "/root" 5 0 =
      .dir "root" "/root"
        [.dir "A" "/root/A"
           [.error "bad" "/root/A/bad" (some "stat failed"),
            .file "f.txt" "/root/A/f.txt" 2097152 "2024-01-01T00:00:00"
              "644" 0 0] 2 "T",
         .error "B" "/root/B" (some "权限不足"),
         .file "g.log" "/root/g.log" 0 "2024-01-01T00:00:00" "644" 0 0]
        3 "T" :=
  ⟨fun env p m d f hd hl => scan_directory_listing_error env p hd hl,
   rfl, fun _ => rfl, rfl⟩

/-- Witness for `C2_fault_isolation`: the permission fault on
`/root/B`. -/
theorem C2_fault_isolation_witness :
    ((0 : Nat) ≤ 5 ∧ envIso.list "/root/B" = .error .permission) ∧
    scan_directory envIso "/root/B" 5 0 =
      .error "B" "/root/B" (some "权限不足") := by
  refine ⟨⟨by omega, rfl⟩, ?_⟩
  exact C2_fault_isolation.1 envIso "/root/B" 5 0 .permission (by omega) rfl

/-- **C3 counterexample**: the indented-text renderer's default message
for an Error node without a message is the source literal `"未知错误"`,
not the text `"unknown error"` stated by the claim. -/
theorem C3_counterexample :
    write_text_format (.error "x" "/x" none) 0 =
      ["[ERROR] x - 未知错误\n"] ∧
    ("[ERROR] x - 未知错误\n" : String) ≠ "[ERROR] x - unknown error\n" :=
  ⟨rfl, by decide⟩

/-- **C3 (amended)**: `_write_text_format` is a pre-order traversal with
two spaces of indentation per level; directories yield `[DIR] <name>`,
files `[FILE] <name> (<size/2^20, two decimals> MB)`, errors
`[ERROR] <name> - <message>` with the message defaulting to the source
literal `"未知错误"` when absent; on the scenario tree it emits exactly
the four expected lines. -/
theorem C3_text_renderer :
    write_text_format tree3 0 =
      ["[DIR] root\n", "  [DIR] A\n", "    [FILE] f.txt (2.00 MB)\n",
       "  [FILE] g.log (0.00 MB)\n"] ∧
    (∀ name path items c t indent,
      write_text_format (.dir name path items c t) indent =
        (indentStr indent ++ "[DIR] " ++ name ++ "\n") ::
          write_text_format_list items (indent + 1)) ∧
    (∀ x xs indent, write_text_format_list (x :: xs) indent =
      write_text_format x indent ++ write_text_format_list xs indent) ∧
    (∀ name path size modified perms owner group indent,
      write_text_format (.file name path size modified perms owner group)
          indent =
        [indentStr indent ++ "[FILE] " ++ name ++ " (" ++ formatMB size ++
          " MB)\n"]) ∧
    (∀ name path msg indent,
      write_text_format (.error name path (some msg)) indent =
        [indentStr indent ++ "[ERROR] " ++ name ++ " - " ++ msg ++
          "\n"]) ∧
    (∀ name path indent,
      write_text_format (.error name path none) indent =
        [indentStr indent ++ "[ERROR] " ++ name ++ " - " ++ "未知错误" ++
          "\n"]) :=
  ⟨rfl, fun _ _ _ _ _ _ => rfl, fun _ _ _ => rfl,
   fun _ _ _ _ _ _ _ _ => rfl, fun _ _ _ _ => rfl, fun _ _ _ => rfl⟩

/-- **C9** (confirmed): a successful scan of a root path whose basename
is empty names the root node `/`. -/
theorem C9_root_name (env : Env) (p : String) (m : Nat)
    (entries : List Entry) (hb : basename p = "")
    (hl : env.list p = .ok entries) :
    Node.nameOf (scan_directory env p m 0) = "/" := by
  rw [scan_directory_listing_ok env p (Nat.zero_le m) hl]
  simp [Node.nameOf, hb]

/-- Witness for `C9_root_name`: scanning `/`. -/
theorem C9_root_name_witness :
    (basename "/" = "" ∧ envEmpty.list "/" = .ok []) ∧
    Node.nameOf (scan_directory envEmpty "/" 10 0) = "/" :=
  ⟨⟨rfl, rfl⟩, C9_root_name envEmpty "/" 10 [] rfl rfl⟩

/-- **C5 counterexample**: the sink rejects the identifiers
`structured`, `text` and `report` (returning `False`) and accepts
`json` — the source's identifiers are `json`/`txt`/`md`, not the ones
stated by the claim. -/
theorem C5_counterexample :
    save_results "structured" (.depthGuardDir "x") none none =
      (false, []) ∧
    save_results "text" (.depthGuardDir "x") none none = (false, []) ∧
    save_results "report" (.depthGuardDir "x") none none = (false, []) ∧
    (save_results "json" (.depthGuardDir "x") none none).1 = true :=
  ⟨rfl, rfl, rfl, rfl⟩

/-- **C5 (amended)**: `save_results` accepts exactly the (lower-cased)
format identifiers `json`, `txt` and `md`; any other identifier is
rejected with a `False` return, and a write fault also surfaces as a
`False` return with the chunks already written kept (not rolled
back). -/
theorem C5_save_results :
    (∀ fmt data si wf,
      ¬(strLower fmt = "json" ∨ strLower fmt = "txt" ∨
        strLower fmt = "md") →
      save_results fmt data si wf = (false, [])) ∧
    (∀ data si, save_results "json" data si none =
      (true, [jsonText data])) ∧
    (∀ data si, save_results "txt" data si none =
      (true, write_text_format data 0)) ∧
    (∀ data si, save_results "md" data si none =
      (true, (write_markdown_format data si 0).map MdEv.text)) ∧
    (∀ fmt data si k chunks,
      renderChunks (strLower fmt) data si = some chunks →
      k < chunks.length →
      save_results fmt data si (some k) = (false, chunks.take k)) := by
  refine ⟨?_, fun _ _ => rfl, fun _ _ => rfl, fun _ _ => rfl, ?_⟩
  · intro fmt data si wf h
    push_neg at h
    obtain ⟨h1, h2, h3⟩ := h
    simp [save_results, renderChunks, h1, h2, h3]
  · intro fmt data si k chunks hch hk
    simp [save_results, hch, hk]

/-- Witness for `C5_save_results`: `structured` is rejected and a write
fault on the first chunk of a `txt` render returns `False` with nothing
kept. -/
theorem C5_save_results_witness :
    (¬(strLower "structured" = "json" ∨ strLower "structured" = "txt" ∨
        strLower "structured" = "md") ∧
      save_results "structured" (.depthGuardDir "x") none none =
        (false, [])) ∧
    (renderChunks (strLower "txt") (.error "x" "/x" (some "m")) none =
        some ["[ERROR] x - m\n"] ∧ (0 : Nat) < 1 ∧
      save_results "txt" (.error "x" "/x" (some "m")) none (some 0) =
        (false, [])) := by
  refine ⟨⟨by decide, C5_save_results.1 "structured" _ none none
      (by decide)⟩, rfl, by omega, ?_⟩
  have h := C5_save_results.2.2.2.2 "txt" (.error "x" "/x" (some "m"))
    none 0 ["[ERROR] x - m\n"] rfl (by decide)
  simpa using h

/-! ## C7/C4: the report renderer's headings and tables -/

theorem node_ind (P : Node → Prop)
    (hdir : ∀ n p items c t, (∀ x ∈ items, P x) → P (.dir n p items c t))
    (htr : ∀ n p, P (.truncatedDir n p))
    (hg : ∀ n, P (.depthGuardDir n))
    (hf : ∀ n p s mo pe o g, P (.file n p s mo pe o g))
    (he : ∀ n p e, P (.error n p e)) : ∀ x, P x
  | .dir n p items c t =>
    hdir n p items c t fun y hy => node_ind P hdir htr hg hf he y
  | .truncatedDir n p => htr n p
  | .depthGuardDir n => hg n
  | .file n p s mo pe o g => hf n p s mo pe o g
  | .error n p e => he n p e
termination_by x => sizeOf x
decreasing_by
  simp_wf
  have := List.sizeOf_lt_of_mem hy
  omega

theorem heading_not_mem_mdPrelude {lvl : Nat} {nm : String} {data : Node}
    {si : Option SysInfo} : MdEv.heading lvl nm ∉ mdPrelude data si := by
  cases si <;> simp [mdPrelude]

theorem heading_ne_mdRow {lvl : Nat} {nm : String} {item : Node} :
    MdEv.heading lvl nm ≠ mdRow item := by
  cases item <;> simp [mdRow]

theorem mem_mdChildren {ev : MdEv} : ∀ {l : List Node} {ind : Nat},
    ev ∈ mdChildren l ind →
    ∃ y ∈ l, ev ∈ write_markdown_format y none ind := by
  intro l
  induction l with
  | nil => intro ind h; simp [mdChildren] at h
  | cons a l ih =>
    intro ind h
    rw [show mdChildren (a :: l) ind =
        (if isDirWithItems a then write_markdown_format a none ind
         else []) ++ mdChildren l ind from rfl] at h
    rcases List.mem_append.mp h with h | h
    · split at h
      · exact ⟨a, List.mem_cons_self a l, h⟩
      · simp at h
    · obtain ⟨y, hy, hev⟩ := ih h
      exact ⟨y, List.mem_cons_of_mem a hy, hev⟩

theorem md_heading_levels (x : Node) :
    ∀ (si : Option SysInfo) (indent lvl : Nat) (nm : String),
    MdEv.heading lvl nm ∈ write_markdown_format x si indent →
    (∃ d2, indent ≤ d2 ∧ lvl = min (d2 + 2) 6) ∧ lvl ≤ 6 := by
  induction x using node_ind with
  | hdir n p items c t ih =>
    intro si indent lvl nm h
    rw [show write_markdown_format (.dir n p items c t) si indent =
        (if indent = 0 then mdPrelude (.dir n p items c t) si else []) ++
        (.heading (min (indent + 2) 6) n ::
          (if items.isEmpty then [] else
            .tableHead :: (items.map mdRow ++ .write "\n" ::
              mdChildren items (indent + 1)))) from rfl] at h
    rcases List.mem_append.mp h with h | h
    · split at h
      · exact absurd h heading_not_mem_mdPrelude
      · simp at h
    · rcases List.mem_cons.mp h with heq | h
      · injection heq with h1 h2
        refine ⟨⟨indent, Nat.le_refl _, h1⟩, ?_⟩
        rw [h1]
        exact Nat.min_le_right _ _
      · split at h
        · simp at h
        · rcases List.mem_cons.mp h with heq | h
          · cases heq
          · rcases List.mem_append.mp h with h | h
            · obtain ⟨item, _, heq⟩ := List.mem_map.mp h
              exact absurd heq.symm heading_ne_mdRow
            · rcases List.mem_cons.mp h with heq | h
              · cases heq
              · obtain ⟨y, hy, hev⟩ := mem_mdChildren h
                obtain ⟨⟨d2, hd2, hlvl⟩, h6⟩ :=
                  ih y hy none (indent + 1) lvl nm hev
                exact ⟨⟨d2, by omega, hlvl⟩, h6⟩
  | htr n p =>
    intro si indent lvl nm h
    rw [show write_markdown_format (.truncatedDir n p) si indent =
        (if indent = 0 then mdPrelude (.truncatedDir n p) si else []) ++
        [.heading (min (indent + 2) 6) n] from rfl] at h
    rcases List.mem_append.mp h with h | h
    · split at h
      · exact absurd h heading_not_mem_mdPrelude
      · simp at h
    · rcases List.mem_cons.mp h with heq | h
      · injection heq with h1 h2
        refine ⟨⟨indent, Nat.le_refl _, h1⟩, ?_⟩
        rw [h1]
        exact Nat.min_le_right _ _
      · simp at h
  | hg n =>
    intro si indent lvl nm h
    rw [show write_markdown_format (.depthGuardDir n) si indent =
        (if indent = 0 then mdPrelude (.depthGuardDir n) si else []) ++
        [.heading (min (indent + 2) 6) n] from rfl] at h
    rcases List.mem_append.mp h with h | h
    · split at h
      · exact absurd h heading_not_mem_mdPrelude
      · simp at h
    · rcases List.mem_cons.mp h with heq | h
      · injection heq with h1 h2
        refine ⟨⟨indent, Nat.le_refl _, h1⟩, ?_⟩
        rw [h1]
        exact Nat.min_le_right _ _
      · simp at h
  | hf n p s mo pe o g =>
    intro si indent lvl nm h
    rw [show write_markdown_format (.file n p s mo pe o g) si indent =
        (if indent = 0 then mdPrelude (.file n p s mo pe o g) si
         else []) ++ mdFileBlock n p s mo pe o g from rfl] at h
    rcases List.mem_append.mp h with h | h
    · split at h
      · exact absurd h heading_not_mem_mdPrelude
      · simp at h
    · simp [mdFileBlock] at h
  | he n p e =>
    intro si indent lvl nm h
    rw [show write_markdown_format (.error n p e) si indent =
        (if indent = 0 then mdPrelude (.error n p e) si else []) ++
        mdErrorBlock n p e from rfl] at h
    rcases List.mem_append.mp h with h | h
    · split at h
      · exact absurd h heading_not_mem_mdPrelude
      · simp at h
    · simp [mdErrorBlock] at h

/-- **C7** (confirmed): every heading `_write_markdown_format` emits for
a directory dict carries a level of the form `min(d + 2, 6)` for some
recursion depth `d` at or below the starting indent — hence no emitted
heading level ever exceeds 6, whatever the nesting depth of the
tree. -/
theorem C7_heading_levels (x : Node) (si : Option SysInfo)
    (indent lvl : Nat) (nm : String)
    (h : MdEv.heading lvl nm ∈ write_markdown_format x si indent) :
    (∃ d2, indent ≤ d2 ∧ lvl = min (d2 + 2) 6) ∧ lvl ≤ 6 :=
  md_heading_levels x si indent lvl nm h

/-- Witness for `C7_heading_levels`: the nested heading of the concrete
two-level tree. -/
theorem C7_heading_levels_witness :
    MdEv.heading 3 "A" ∈ write_markdown_format treeC4 none 0 ∧
    ((∃ d2, 0 ≤ d2 ∧ 3 = min (d2 + 2) 6) ∧ 3 ≤ 6) := by
  have hmem : MdEv.heading 3 "A" ∈ write_markdown_format treeC4 none 0 := by
    decide
  exact ⟨hmem, C7_heading_levels treeC4 none 0 3 "A" hmem⟩

/-- **C4 counterexample**: rendering a root whose only child `A` is a
directory with an empty children sequence still emits a heading block
for `A` (the recursion condition is carrying an `items` key, not having
children), and the placeholder cells are the ASCII hyphen `-`, not an
em-dash. -/
theorem C4_counterexample :
    write_markdown_format treeC4 none 0 =
      [.write "# NAS目录结构报告\n\n", .write "**扫描时间**: T\n\n",
       .write "## 目录结构\n\n", .heading 2 "root", .tableHead,
       .row "📁 目录" "A" "-" "-" "-", .write "\n", .heading 3 "A"] ∧
    MdEv.heading 3 "A" ∈ write_markdown_format treeC4 none 0 ∧
    Node.itemsOpt (.dir "A" "/r/A" [] 0 "T") = some [] ∧
    MdEv.row "📁 目录" "A" "-" "-" "-" ≠
      MdEv.row "📁 目录" "A" "—" "—" "—" :=
  ⟨rfl, by decide, rfl, by decide⟩

/-- **C4 (amended)**: table rows show, for a File, the
`f"{size_mb:.2f} MB"` text when the size is positive and the literal
`"0 B"` exactly when it is zero; for a Directory, `-` placeholders in
the size, modified-time and permissions columns; for an Error, the
message (default `"未知错误"`) in the permissions column with `-`
elsewhere.  After a directory's own heading — and, when its children
sequence is nonempty, its table — the renderer recurses, in listing
order, into exactly those children that carry an `items` key (the full
directory dicts, childless ones included); File and Error children get
no heading block of their own. -/
theorem C4_report_tables :
    (∀ n p sz mo pe ow gr, mdRow (.file n p sz mo pe ow gr) =
      .row "📄 文件" n
        (if 0 < sz then formatMB sz ++ " MB" else "0 B") mo pe) ∧
    (∀ n p mo pe ow gr, mdRow (.file n p 0 mo pe ow gr) =
      .row "📄 文件" n "0 B" mo pe) ∧
    (∀ n p items c t, mdRow (.dir n p items c t) =
      .row "📁 目录" n "-" "-" "-") ∧
    (∀ n p msg, mdRow (.error n p (some msg)) =
      .row "❌ 错误" n "-" "-" msg) ∧
    (∀ n p, mdRow (.error n p none) =
      .row "❌ 错误" n "-" "-" "未知错误") ∧
    (∀ name path items c t si indent, indent ≠ 0 →
      write_markdown_format (.dir name path items c t) si indent =
        .heading (min (indent + 2) 6) name ::
          (if items.isEmpty then [] else
            .tableHead :: (items.map mdRow ++ .write "\n" ::
              mdChildren items (indent + 1)))) ∧
    (∀ item rest indent, mdChildren (item :: rest) indent =
      (if isDirWithItems item then write_markdown_format item none indent
       else []) ++ mdChildren rest indent) ∧
    (∀ item, isDirWithItems item = true ↔
      ∃ n p its c t, item = .dir n p its c t) := by
  refine ⟨fun _ _ _ _ _ _ _ => rfl, fun _ _ _ _ _ _ => rfl,
    fun _ _ _ _ _ => rfl, fun _ _ _ => rfl, fun _ _ => rfl, ?_,
    fun _ _ _ => rfl, ?_⟩
  · intro name path items c t si indent h
    rw [show write_markdown_format (.dir name path items c t) si indent =
        (if indent = 0 then mdPrelude (.dir name path items c t) si
         else []) ++
        (.heading (min (indent + 2) 6) name ::
          (if items.isEmpty then [] else
            .tableHead :: (items.map mdRow ++ .write "\n" ::
              mdChildren items (indent + 1)))) from rfl]
    rw [if_neg h, List.nil_append]
  · intro item
    cases item with
    | dir n p its c t => simp [isDirWithItems]
    | truncatedDir n p => simp [isDirWithItems]
    | depthGuardDir n => simp [isDirWithItems]
    | file n p s mo pe o g => simp [isDirWithItems]
    | error n p e => simp [isDirWithItems]

/-- Witness for `C4_report_tables`: the childless directory `A` rendered
at indent 1 yields exactly its heading block. -/
theorem C4_report_tables_witness :
    ((1 : Nat) ≠ 0 ∧
      write_markdown_format (.dir "A" "/r/A" [] 0 "T") none 1 =
        [.heading 3 "A"]) ∧
    mdRow (.file "g" "/g" 0 "M" "644" 0 0) =
      .row "📄 文件" "g" "0 B" "M" "644" := by
  refine ⟨⟨by decide, ?_⟩,
    C4_report_tables.2.1 "g" "/g" "M" "644" 0 0⟩
  have h := C4_report_tables.2.2.2.2.2.1 "A" "/r/A" [] 0 "T" none 1
    (by decide)
  simpa using h

/-! ## C6: the structured-data round trip -/

theorem digitChar_isDigit {k : Nat} (h : k < 10) :
    (digitChar k).isDigit = true := by
  interval_cases k <;> decide

theorem digitChar_sub {k : Nat} (h : k < 10) :
    (digitChar k).toNat - 48 = k := by
  interval_cases k <;> decide

theorem isDigit_ne {c x : Char} (h : c.isDigit = true)
    (hx : x.isDigit = false) : c ≠ x := by
  intro heq
  rw [heq, hx] at h
  cases h

theorem natDigitsAux_eq_spec :
    ∀ (fuel n : Nat) (acc : List Char), n < fuel →
    natDigitsAux fuel n acc = natDigitsSpec n ++ acc := by
  intro fuel
  induction fuel with
  | zero => omega
  | succ fuel ih =>
    intro n acc hn
    by_cases h : n < 10
    · rw [natDigitsSpec]
      simp [natDigitsAux, h]
    · have h10 : 10 ≤ n := by omega
      have hdiv : n / 10 < fuel := by
        have := Nat.div_lt_self (show 0 < n by omega) (show 1 < 10 by omega)
        omega
      rw [natDigitsSpec]
      simp only [natDigitsAux, if_neg h, ih (n / 10) _ hdiv]
      simp [List.append_assoc]

theorem natDigits_eq_spec (n : Nat) : natDigits n = natDigitsSpec n := by
  have := natDigitsAux_eq_spec (n + 1) n [] (by omega)
  simpa [natDigits] using this

theorem parseNatAux_no_digit : ∀ (l : List Char) (a : Nat),
    noDigitHead l → parseNatAux l a = (a, l) := by
  intro l a h
  cases l with
  | nil => rfl
  | cons c rest =>
    have := h c rfl
    simp [parseNatAux, this]

theorem parseNatAux_spec : ∀ (n : Nat), ∀ (a : Nat) (l : List Char),
    ∃ b, 0 < b ∧
      parseNatAux (natDigitsSpec n ++ l) a = parseNatAux l (a * b + n) := by
  intro n
  induction n using Nat.strong_induction_on with
  | _ n ih =>
    intro a l
    by_cases h : n < 10
    · refine ⟨10, by omega, ?_⟩
      rw [natDigitsSpec, if_pos h]
      simp [parseNatAux, digitChar_isDigit h, digitChar_sub h]
    · have h10 : 10 ≤ n := by omega
      have hdiv : n / 10 < n :=
        Nat.div_lt_self (by omega) (by omega)
      obtain ⟨b, hb, heq⟩ := ih (n / 10) hdiv a (digitChar (n % 10) :: l)
      refine ⟨b * 10, by positivity, ?_⟩
      rw [natDigitsSpec, if_neg h]
      rw [List.append_assoc]
      simp only [List.cons_append, List.nil_append] at heq ⊢
      rw [heq]
      have hm : n % 10 < 10 := Nat.mod_lt _ (by omega)
      simp [parseNatAux, digitChar_isDigit hm, digitChar_sub hm]
      congr 1
      have := Nat.div_add_mod n 10
      ring_nf
      omega

theorem parseNatAux_render (n : Nat) (l : List Char) (hl : noDigitHead l) :
    parseNatAux (natDigits n ++ l) 0 = (n, l) := by
  rw [natDigits_eq_spec]
  obtain ⟨b, hb, heq⟩ := parseNatAux_spec n 0 l
  rw [heq, Nat.zero_mul, Nat.zero_add]
  exact parseNatAux_no_digit l n hl

theorem natDigitsSpec_head (n : Nat) :
    ∃ k rest2, k < 10 ∧ natDigitsSpec n = digitChar k :: rest2 := by
  induction n using Nat.strong_induction_on with
  | _ n ih =>
    by_cases h : n < 10
    · exact ⟨n, [], h, by rw [natDigitsSpec, if_pos h]⟩
    · obtain ⟨k, rest2, hk, hspec⟩ :=
        ih (n / 10) (Nat.div_lt_self (by omega) (by omega))
      exact ⟨k, rest2 ++ [digitChar (n % 10)], hk, by
        rw [natDigitsSpec, if_neg h, hspec]; rfl⟩

theorem skipWs_ws_cons {c : Char} {l : List Char}
    (h : c = ' ' ∨ c = '\n' ∨ c = '\r' ∨ c = '\t') :
    skipWs (c :: l) = skipWs l := by
  rw [skipWs, if_pos h]

theorem skipWs_not_ws {c : Char} {l : List Char}
    (h : ¬(c = ' ' ∨ c = '\n' ∨ c = '\r' ∨ c = '\t')) :
    skipWs (c :: l) = c :: l := by
  rw [skipWs, if_neg h]

theorem skipWs_spaces : ∀ (k : Nat) (l : List Char),
    skipWs (spacesChars k ++ l) = skipWs l := by
  intro k
  induction k with
  | zero => intro l; rfl
  | succ k ih =>
    intro l
    show skipWs (List.replicate (k + 1) ' ' ++ l) = skipWs l
    rw [List.replicate_succ, List.cons_append,
      skipWs_ws_cons (Or.inl rfl)]
    exact ih l

theorem hexVal_hexDigitChar {k : Nat} (h : k < 16) :
    hexVal (hexDigitChar k) = some k := by
  interval_cases k <;> decide

theorem parseEsc_u (v3 v4 : Nat) (hv3 : v3 < 16) (hv4 : v4 < 16)
    (rest acc : List Char) :
    parseEsc ('u' :: '0' :: '0' :: hexDigitChar v3 ::
        hexDigitChar v4 :: rest) acc =
      parseStringBody rest (Char.ofNat (v3 * 16 + v4) :: acc) := by
  show (match hexVal '0', hexVal '0', hexVal (hexDigitChar v3),
      hexVal (hexDigitChar v4) with
    | some w1, some w2, some w3, some w4 =>
      parseStringBody rest
        (Char.ofNat (((w1 * 16 + w2) * 16 + w3) * 16 + w4) :: acc)
    | _, _, _, _ => none) =
    parseStringBody rest (Char.ofNat (v3 * 16 + v4) :: acc)
  rw [show hexVal '0' = some 0 from rfl, hexVal_hexDigitChar hv3,
    hexVal_hexDigitChar hv4]
  show parseStringBody rest
      (Char.ofNat (((0 * 16 + 0) * 16 + v3) * 16 + v4) :: acc) = _
  rw [show ((0 * 16 + 0) * 16 + v3) * 16 + v4 = v3 * 16 + v4 from by
    omega]

theorem parseStringBody_escape : ∀ (s acc l : List Char),
    parseStringBody (escapeList s ++ '"' :: l) acc =
      some (⟨acc.reverse ++ s⟩, l) := by
  intro s
  induction s with
  | nil =>
    intro acc l
    simp [escapeList, parseStringBody]
  | cons c s ih =>
    intro acc l
    have hstep : escapeList (c :: s) ++ '"' :: l =
        escapeChar c ++ (escapeList s ++ '"' :: l) := by
      show (escapeChar c ++ escapeList s) ++ '"' :: l = _
      rw [List.append_assoc]
    rw [hstep]
    by_cases h1 : c = '\\'
    · subst h1
      rw [show escapeChar '\\' = ['\\', '\\'] from rfl]
      show parseStringBody (escapeList s ++ '"' :: l) ('\\' :: acc) =
        some (⟨acc.reverse ++ '\\' :: s⟩, l)
      rw [ih]
      simp
    · by_cases h2 : c = '"'
      · subst h2
        rw [show escapeChar '"' = ['\\', '"'] from rfl]
        show parseStringBody (escapeList s ++ '"' :: l) ('"' :: acc) =
          some (⟨acc.reverse ++ '"' :: s⟩, l)
        rw [ih]
        simp
      · by_cases h3 : c = Char.ofNat 8
        · subst h3
          rw [show escapeChar (Char.ofNat 8) = ['\\', 'b'] from by decide]
          show parseStringBody (escapeList s ++ '"' :: l)
              (Char.ofNat 8 :: acc) =
            some (⟨acc.reverse ++ Char.ofNat 8 :: s⟩, l)
          rw [ih]
          simp
        · by_cases h4 : c = Char.ofNat 12
          · subst h4
            rw [show escapeChar (Char.ofNat 12) = ['\\', 'f'] from by
              decide]
            show parseStringBody (escapeList s ++ '"' :: l)
                (Char.ofNat 12 :: acc) =
              some (⟨acc.reverse ++ Char.ofNat 12 :: s⟩, l)
            rw [ih]
            simp
          · by_cases h5 : c = '\n'
            · subst h5
              rw [show escapeChar '\n' = ['\\', 'n'] from by decide]
              show parseStringBody (escapeList s ++ '"' :: l)
                  ('\n' :: acc) =
                some (⟨acc.reverse ++ '\n' :: s⟩, l)
              rw [ih]
              simp
            · by_cases h6 : c = '\r'
              · subst h6
                rw [show escapeChar '\r' = ['\\', 'r'] from by decide]
                show parseStringBody (escapeList s ++ '"' :: l)
                    ('\r' :: acc) =
                  some (⟨acc.reverse ++ '\r' :: s⟩, l)
                rw [ih]
                simp
              · by_cases h7 : c = '\t'
                · subst h7
                  rw [show escapeChar '\t' = ['\\', 't'] from by decide]
                  show parseStringBody (escapeList s ++ '"' :: l)
                      ('\t' :: acc) =
                    some (⟨acc.reverse ++ '\t' :: s⟩, l)
                  rw [ih]
                  simp
                · by_cases h8 : c.toNat < 32
                  · rw [show escapeChar c =
                        ['\\', 'u', '0', '0', hexDigitChar (c.toNat / 16),
                         hexDigitChar (c.toNat % 16)] from by
                      rw [escapeChar, if_neg h1, if_neg h2, if_neg h3,
                        if_neg h4, if_neg h5, if_neg h6, if_neg h7,
                        if_pos h8]]
                    show parseEsc
                      ('u' :: '0' :: '0' :: hexDigitChar (c.toNat / 16) ::
                        hexDigitChar (c.toNat % 16) ::
                        (escapeList s ++ '"' :: l)) acc =
                      some (⟨acc.reverse ++ c :: s⟩, l)
                    rw [parseEsc_u (c.toNat / 16) (c.toNat % 16)
                      (by omega) (by omega)]
                    have harith : c.toNat / 16 * 16 + c.toNat % 16 =
                        c.toNat := by omega
                    rw [harith, Char.ofNat_toNat, ih]
                    simp
                  · rw [show escapeChar c = [c] from by
                      rw [escapeChar, if_neg h1, if_neg h2, if_neg h3,
                        if_neg h4, if_neg h5, if_neg h6, if_neg h7,
                        if_neg h8]]
                    show parseStringBody
                      (c :: (escapeList s ++ '"' :: l)) acc =
                      some (⟨acc.reverse ++ c :: s⟩, l)
                    rw [parseStringBody, if_neg h2, if_neg h1, ih]
                    simp

theorem szJ_pos : ∀ j : J, 1 ≤ szJ j := by
  intro j
  cases j <;> simp [szJ]

theorem szL_pos : ∀ xs : List J, 1 ≤ szL xs := by
  intro xs
  cases xs <;> simp [szL]

theorem szF_pos : ∀ fs : List (String × J), 1 ≤ szF fs := by
  intro fs
  cases fs with
  | nil => simp [szF]
  | cons f fs => obtain ⟨k, v⟩ := f; simp [szF]

theorem parseVal_succ (fuel : Nat) (l : List Char) :
    parseVal (fuel + 1) l =
      match skipWs l with
      | [] => none
      | c :: rest =>
        if c = '"' then
          (parseStringBody rest []).map fun p => (J.str p.1, p.2)
        else if c = 't' then
          match rest with
          | 'r' :: 'u' :: 'e' :: r => some (J.bool true, r)
          | _ => none
        else if c = 'f' then
          match rest with
          | 'a' :: 'l' :: 's' :: 'e' :: r => some (J.bool false, r)
          | _ => none
        else if c = '[' then
          match skipWs rest with
          | ']' :: r => some (J.arr [], r)
          | _ => (parseElems fuel rest).map fun p => (J.arr p.1, p.2)
        else if c = '{' then
          match skipWs rest with
          | '}' :: r => some (J.obj [], r)
          | _ => (parseFields fuel rest).map fun p => (J.obj p.1, p.2)
        else if c.isDigit then
          let p := parseNatAux (c :: rest) 0
          some (J.num p.1, p.2)
        else none := rfl

theorem parseElems_succ (fuel : Nat) (l : List Char) :
    parseElems (fuel + 1) l =
      match parseVal fuel l with
      | none => none
      | some (j, r) =>
        match skipWs r with
        | ',' :: r2 =>
          match parseElems fuel r2 with
          | none => none
          | some (xs, r3) => some (j :: xs, r3)
        | ']' :: r2 => some ([j], r2)
        | _ => none := rfl

theorem parseFields_succ (fuel : Nat) (l : List Char) :
    parseFields (fuel + 1) l =
      match skipWs l with
      | k :: r0 =>
        if k = '"' then
          match parseStringBody r0 [] with
          | none => none
          | some (key, r1) =>
            match skipWs r1 with
            | ':' :: r2 =>
              match parseVal fuel r2 with
              | none => none
              | some (v, r3) =>
                match skipWs r3 with
                | ',' :: r4 =>
                  match parseFields fuel r4 with
                  | none => none
                  | some (fs, r5) => some ((key, v) :: fs, r5)
                | '}' :: r4 => some ([(key, v)], r4)
                | _ => none
            | _ => none
        else none
      | [] => none := rfl

theorem renderJ_head (j : J) (ind : Nat) :
    ∃ c rest2, renderJ j ind = c :: rest2 ∧
      (c = '"' ∨ c = 't' ∨ c = 'f' ∨ c = '[' ∨ c = '{' ∨
        c.isDigit = true) := by
  cases j with
  | str s => exact ⟨'"', _, rfl, Or.inl rfl⟩
  | num n =>
    obtain ⟨k, r2, hk, hspec⟩ := natDigitsSpec_head n
    refine ⟨digitChar k, r2, ?_, Or.inr (Or.inr (Or.inr (Or.inr
      (Or.inr (digitChar_isDigit hk)))))⟩
    show natDigits n = _
    rw [natDigits_eq_spec, hspec]
  | bool b =>
    cases b with
    | true => exact ⟨'t', _, rfl, Or.inr (Or.inl rfl)⟩
    | false => exact ⟨'f', _, rfl, Or.inr (Or.inr (Or.inl rfl))⟩
  | arr xs =>
    cases xs with
    | nil => exact ⟨'[', _, rfl, Or.inr (Or.inr (Or.inr (Or.inl rfl)))⟩
    | cons x xs =>
      exact ⟨'[', _, rfl, Or.inr (Or.inr (Or.inr (Or.inl rfl)))⟩
  | obj fs =>
    cases fs with
    | nil =>
      exact ⟨'{', _, rfl,
        Or.inr (Or.inr (Or.inr (Or.inr (Or.inl rfl))))⟩
    | cons f fs =>
      obtain ⟨k, v⟩ := f
      exact ⟨'{', _, rfl,
        Or.inr (Or.inr (Or.inr (Or.inr (Or.inl rfl))))⟩

theorem good_head_not_ws {c : Char}
    (h : c = '"' ∨ c = 't' ∨ c = 'f' ∨ c = '[' ∨ c = '{' ∨
      c.isDigit = true) :
    ¬(c = ' ' ∨ c = '\n' ∨ c = '\r' ∨ c = '\t') := by
  rcases h with rfl | rfl | rfl | rfl | rfl | h
  · decide
  · decide
  · decide
  · decide
  · decide
  · rintro (rfl | rfl | rfl | rfl) <;> exact absurd h (by decide)

theorem good_head_ne_rbracket {c : Char}
    (h : c = '"' ∨ c = 't' ∨ c = 'f' ∨ c = '[' ∨ c = '{' ∨
      c.isDigit = true) : c ≠ ']' := by
  rcases h with rfl | rfl | rfl | rfl | rfl | h
  · decide
  · decide
  · decide
  · decide
  · decide
  · exact isDigit_ne h (by decide)

theorem good_head_ne_rbrace {c : Char}
    (h : c = '"' ∨ c = 't' ∨ c = 'f' ∨ c = '[' ∨ c = '{' ∨
      c.isDigit = true) : c ≠ '}' := by
  rcases h with rfl | rfl | rfl | rfl | rfl | h
  · decide
  · decide
  · decide
  · decide
  · decide
  · exact isDigit_ne h (by decide)

theorem skipWs_renderJ (j : J) (ind : Nat) (l : List Char) :
    skipWs (renderJ j ind ++ l) = renderJ j ind ++ l := by
  obtain ⟨c, rest2, hhead, hgood⟩ := renderJ_head j ind
  rw [hhead, List.cons_append, skipWs_not_ws (good_head_not_ws hgood)]

theorem parse_render : ∀ (fuel : Nat),
    (∀ (j : J) (ind : Nat) (l L : List Char), szJ j ≤ fuel →
      noDigitHead l → skipWs L = renderJ j ind ++ l →
      parseVal fuel L = some (j, l)) ∧
    (∀ (x : J) (xs : List J) (ind ind2 : Nat) (l L : List Char),
      szL (x :: xs) ≤ fuel →
      skipWs L = renderJ x ind ++ (renderElems xs ind ++
        ('\n' :: (spacesChars ind2 ++ (']' :: l)))) →
      parseElems fuel L = some (x :: xs, l)) ∧
    (∀ (k : String) (v : J) (fs : List (String × J)) (ind ind2 : Nat)
      (l L : List Char), szF ((k, v) :: fs) ≤ fuel →
      skipWs L = renderField (k, v) ind ++ (renderFields fs ind ++
        ('\n' :: (spacesChars ind2 ++ ('}' :: l)))) →
      parseFields fuel L = some ((k, v) :: fs, l)) := by
  intro fuel
  induction fuel using Nat.strong_induction_on with
  | _ fuel ih =>
    refine ⟨?_, ?_, ?_⟩
    · -- values
      intro j ind l L hsz hnd hL
      cases fuel with
      | zero => have := szJ_pos j; omega
      | succ f =>
        rw [parseVal_succ, hL]
        cases j with
        | str s =>
          rw [show renderJ (J.str s) ind ++ l =
              '"' :: (escapeList s.data ++ '"' :: l) from by
            simp [renderJ, List.append_eq, List.cons_append, List.append_assoc]]
          show (parseStringBody (escapeList s.data ++ '"' :: l) []).map
              (fun p => (J.str p.1, p.2)) = some (J.str s, l)
          rw [parseStringBody_escape]
          rfl
        | num n =>
          obtain ⟨k, r2, hk, hspec⟩ := natDigitsSpec_head n
          have hnd2 : natDigits n = digitChar k :: r2 := by
            rw [natDigits_eq_spec, hspec]
          rw [show renderJ (J.num n) ind ++ l = digitChar k :: (r2 ++ l)
            from by
              show natDigits n ++ l = _
              rw [hnd2]
              rfl]
          have hdig := digitChar_isDigit hk
          show (if digitChar k = '"' then
              (parseStringBody (r2 ++ l) []).map fun p =>
                (J.str p.1, p.2)
            else if digitChar k = 't' then
              match r2 ++ l with
              | 'r' :: 'u' :: 'e' :: r => some (J.bool true, r)
              | _ => none
            else if digitChar k = 'f' then
              match r2 ++ l with
              | 'a' :: 'l' :: 's' :: 'e' :: r => some (J.bool false, r)
              | _ => none
            else if digitChar k = '[' then
              match skipWs (r2 ++ l) with
              | ']' :: r => some (J.arr [], r)
              | _ => (parseElems f (r2 ++ l)).map fun p =>
                  (J.arr p.1, p.2)
            else if digitChar k = '{' then
              match skipWs (r2 ++ l) with
              | '}' :: r => some (J.obj [], r)
              | _ => (parseFields f (r2 ++ l)).map fun p =>
                  (J.obj p.1, p.2)
            else if (digitChar k).isDigit then
              let p := parseNatAux (digitChar k :: (r2 ++ l)) 0
              some (J.num p.1, p.2)
            else none) = some (J.num n, l)
          rw [if_neg (isDigit_ne hdig (by decide)),
            if_neg (isDigit_ne hdig (by decide)),
            if_neg (isDigit_ne hdig (by decide)),
            if_neg (isDigit_ne hdig (by decide)),
            if_neg (isDigit_ne hdig (by decide)), if_pos hdig]
          show some (J.num (parseNatAux (digitChar k :: (r2 ++ l)) 0).1,
            (parseNatAux (digitChar k :: (r2 ++ l)) 0).2) =
            some (J.num n, l)
          rw [show digitChar k :: (r2 ++ l) = natDigits n ++ l from by
            rw [hnd2]
            rfl]
          rw [parseNatAux_render n l hnd]
        | bool b =>
          cases b with
          | true =>
            rw [show renderJ (J.bool true) ind ++ l =
              't' :: 'r' :: 'u' :: 'e' :: l from rfl]
            rfl
          | false =>
            rw [show renderJ (J.bool false) ind ++ l =
              'f' :: 'a' :: 'l' :: 's' :: 'e' :: l from rfl]
            rfl
        | arr xs =>
          cases xs with
          | nil =>
            rw [show renderJ (J.arr []) ind ++ l = '[' :: ']' :: l
              from rfl]
            rfl
          | cons x xs =>
            have hsz2 : szL (x :: xs) ≤ f := by
              have h1 : szJ (J.arr (x :: xs)) = szL (x :: xs) + 1 := rfl
              omega
            rw [show renderJ (J.arr (x :: xs)) ind ++ l =
                '[' :: ('\n' :: (spacesChars (ind + 2) ++
                  (renderJ x (ind + 2) ++ (renderElems xs (ind + 2) ++
                    ('\n' :: (spacesChars ind ++ (']' :: l)))))))
                from by
              simp [renderJ, List.append_eq, List.cons_append, List.append_assoc]]
            have hsw : skipWs ('\n' :: (spacesChars (ind + 2) ++
                (renderJ x (ind + 2) ++ (renderElems xs (ind + 2) ++
                  ('\n' :: (spacesChars ind ++ (']' :: l))))))) =
                renderJ x (ind + 2) ++ (renderElems xs (ind + 2) ++
                  ('\n' :: (spacesChars ind ++ (']' :: l)))) := by
              rw [skipWs_ws_cons (Or.inr (Or.inl rfl)), skipWs_spaces]
              exact skipWs_renderJ x (ind + 2) _
            show (match skipWs ('\n' :: (spacesChars (ind + 2) ++
                (renderJ x (ind + 2) ++ (renderElems xs (ind + 2) ++
                  ('\n' :: (spacesChars ind ++ (']' :: l))))))) with
              | ']' :: r => some (J.arr [], r)
              | _ => (parseElems f ('\n' :: (spacesChars (ind + 2) ++
                  (renderJ x (ind + 2) ++ (renderElems xs (ind + 2) ++
                    ('\n' :: (spacesChars ind ++
                      (']' :: l)))))))).map fun p =>
                  (J.arr p.1, p.2)) = some (J.arr (x :: xs), l)
            rw [hsw]
            have hB := (ih f (Nat.lt_succ_self f)).2.1 x xs (ind + 2)
              ind l ('\n' :: (spacesChars (ind + 2) ++
                (renderJ x (ind + 2) ++ (renderElems xs (ind + 2) ++
                  ('\n' :: (spacesChars ind ++ (']' :: l)))))))
              hsz2 hsw
            split
            · next r heq =>
              obtain ⟨c, cr2, hhead, hgood⟩ := renderJ_head x (ind + 2)
              rw [hhead, List.cons_append] at heq
              injection heq with h1 h2
              exact absurd h1 (good_head_ne_rbracket hgood)
            · rw [hB]
              rfl
        | obj fs =>
          cases fs with
          | nil =>
            rw [show renderJ (J.obj []) ind ++ l = '{' :: '}' :: l
              from rfl]
            rfl
          | cons fkv fs =>
            obtain ⟨k, v⟩ := fkv
            have hsz2 : szF ((k, v) :: fs) ≤ f := by
              have h1 : szJ (J.obj ((k, v) :: fs)) =
                szF ((k, v) :: fs) + 1 := rfl
              omega
            rw [show renderJ (J.obj ((k, v) :: fs)) ind ++ l =
                '{' :: ('\n' :: (spacesChars (ind + 2) ++
                  (renderField (k, v) (ind + 2) ++
                    (renderFields fs (ind + 2) ++
                      ('\n' :: (spacesChars ind ++ ('}' :: l)))))))
                from by
              simp [renderJ, List.append_eq, List.cons_append, List.append_assoc]]
            have hsw : skipWs ('\n' :: (spacesChars (ind + 2) ++
                (renderField (k, v) (ind + 2) ++
                  (renderFields fs (ind + 2) ++
                    ('\n' :: (spacesChars ind ++ ('}' :: l))))))) =
                renderField (k, v) (ind + 2) ++
                  (renderFields fs (ind + 2) ++
                    ('\n' :: (spacesChars ind ++ ('}' :: l)))) := by
              rw [skipWs_ws_cons (Or.inr (Or.inl rfl)), skipWs_spaces]
              show skipWs ('"' :: _) = _
              rw [skipWs_not_ws (by decide)]
              simp [renderField, List.append_eq, List.cons_append,
                List.append_assoc]
            show (match skipWs ('\n' :: (spacesChars (ind + 2) ++
                (renderField (k, v) (ind + 2) ++
                  (renderFields fs (ind + 2) ++
                    ('\n' :: (spacesChars ind ++ ('}' :: l))))))) with
              | '}' :: r => some (J.obj [], r)
              | _ => (parseFields f ('\n' :: (spacesChars (ind + 2) ++
                  (renderField (k, v) (ind + 2) ++
                    (renderFields fs (ind + 2) ++
                      ('\n' :: (spacesChars ind ++
                        ('}' :: l)))))))).map fun p =>
                  (J.obj p.1, p.2)) = some (J.obj ((k, v) :: fs), l)
            rw [hsw]
            have hC := (ih f (Nat.lt_succ_self f)).2.2 k v fs (ind + 2)
              ind l ('\n' :: (spacesChars (ind + 2) ++
                (renderField (k, v) (ind + 2) ++
                  (renderFields fs (ind + 2) ++
                    ('\n' :: (spacesChars ind ++ ('}' :: l)))))))
              hsz2 hsw
            split
            · next r heq =>
              rw [show renderField (k, v) (ind + 2) ++
                  (renderFields fs (ind + 2) ++
                    ('\n' :: (spacesChars ind ++ ('}' :: l)))) =
                  '"' :: (escapeList k.data ++
                    ('"' :: ':' :: ' ' :: renderJ v (ind + 2) ++
                      (renderFields fs (ind + 2) ++
                        ('\n' :: (spacesChars ind ++ ('}' :: l))))))
                from by
                  simp [renderField, List.append_eq, List.cons_append,
                    List.append_assoc]] at heq
              cases heq
            · rw [hC]
              rfl
    · -- array members
      intro x xs ind ind2 l L hsz hL
      cases fuel with
      | zero => have := szL_pos (x :: xs); omega
      | succ f =>
        rw [parseElems_succ]
        have hndT : noDigitHead (renderElems xs ind ++
            ('\n' :: (spacesChars ind2 ++ (']' :: l)))) := by
          cases xs with
          | nil =>
            intro c hc
            rw [show renderElems [] ind ++
              ('\n' :: (spacesChars ind2 ++ (']' :: l))) =
              '\n' :: (spacesChars ind2 ++ (']' :: l)) from rfl] at hc
            injection hc with hc
            rw [← hc]
            decide
          | cons y ys =>
            intro c hc
            rw [show renderElems (y :: ys) ind ++
              ('\n' :: (spacesChars ind2 ++ (']' :: l))) =
              ',' :: ('\n' :: (spacesChars ind ++ (renderJ y ind ++
                (renderElems ys ind ++
                  ('\n' :: (spacesChars ind2 ++ (']' :: l)))))))
              from by
                simp [renderElems, List.append_eq, List.cons_append,
                  List.append_assoc]] at hc
            injection hc with hc
            rw [← hc]
            decide
        have hszx : szJ x ≤ f := by
          have h1 : szL (x :: xs) = szJ x + szL xs + 1 := rfl
          omega
        have hA := (ih f (Nat.lt_succ_self f)).1 x ind
          (renderElems xs ind ++ ('\n' :: (spacesChars ind2 ++
            (']' :: l)))) L hszx hndT hL
        rw [hA]
        show (match skipWs (renderElems xs ind ++
            ('\n' :: (spacesChars ind2 ++ (']' :: l)))) with
          | ',' :: r2 =>
            match parseElems f r2 with
            | none => none
            | some (xs2, r3) => some (x :: xs2, r3)
          | ']' :: r2 => some ([x], r2)
          | _ => none) = some (x :: xs, l)
        cases xs with
        | nil =>
          rw [show renderElems [] ind ++
            ('\n' :: (spacesChars ind2 ++ (']' :: l))) =
            '\n' :: (spacesChars ind2 ++ (']' :: l)) from rfl,
            skipWs_ws_cons (Or.inr (Or.inl rfl)), skipWs_spaces,
            skipWs_not_ws (by decide)]
          rfl
        | cons y ys =>
          have hszy : szL (y :: ys) ≤ f := by
            have h1 : szL (x :: y :: ys) =
              szJ x + szL (y :: ys) + 1 := rfl
            have h2 := szJ_pos x
            omega
          rw [show renderElems (y :: ys) ind ++
              ('\n' :: (spacesChars ind2 ++ (']' :: l))) =
              ',' :: ('\n' :: (spacesChars ind ++ (renderJ y ind ++
                (renderElems ys ind ++
                  ('\n' :: (spacesChars ind2 ++ (']' :: l)))))))
            from by
              simp [renderElems, List.append_eq, List.cons_append, List.append_assoc],
            skipWs_not_ws (by decide)]
          have hB := (ih f (Nat.lt_succ_self f)).2.1 y ys ind ind2 l
            ('\n' :: (spacesChars ind ++ (renderJ y ind ++
              (renderElems ys ind ++
                ('\n' :: (spacesChars ind2 ++ (']' :: l)))))))
            hszy (by
              rw [skipWs_ws_cons (Or.inr (Or.inl rfl)), skipWs_spaces]
              exact skipWs_renderJ y ind _)
          show (match parseElems f
              ('\n' :: (spacesChars ind ++ (renderJ y ind ++
                (renderElems ys ind ++
                  ('\n' :: (spacesChars ind2 ++ (']' :: l))))))) with
            | none => none
            | some (xs2, r3) => some (x :: xs2, r3)) =
            some (x :: y :: ys, l)
          rw [hB]
    · -- object members
      intro k v fs ind ind2 l L hsz hL
      cases fuel with
      | zero => have := szF_pos ((k, v) :: fs); omega
      | succ f =>
        rw [parseFields_succ, hL]
        rw [show renderField (k, v) ind ++ (renderFields fs ind ++
            ('\n' :: (spacesChars ind2 ++ ('}' :: l)))) =
            '"' :: (escapeList k.data ++
              ('"' :: (':' :: (' ' :: (renderJ v ind ++
                (renderFields fs ind ++
                  ('\n' :: (spacesChars ind2 ++ ('}' :: l)))))))))
          from by
            simp [renderField, List.append_eq, List.cons_append, List.append_assoc]]
        show (match parseStringBody (escapeList k.data ++
            ('"' :: (':' :: (' ' :: (renderJ v ind ++
              (renderFields fs ind ++
                ('\n' :: (spacesChars ind2 ++ ('}' :: l))))))))) [] with
          | none => none
          | some (key, r1) =>
            match skipWs r1 with
            | ':' :: r2 =>
              match parseVal f r2 with
              | none => none
              | some (v2, r3) =>
                match skipWs r3 with
                | ',' :: r4 =>
                  match parseFields f r4 with
                  | none => none
                  | some (fs2, r5) => some ((key, v2) :: fs2, r5)
                | '}' :: r4 => some ([(key, v2)], r4)
                | _ => none
            | _ => none) = some ((k, v) :: fs, l)
        rw [parseStringBody_escape]
        show (match skipWs (':' :: (' ' :: (renderJ v ind ++
            (renderFields fs ind ++
              ('\n' :: (spacesChars ind2 ++ ('}' :: l))))))) with
          | ':' :: r2 =>
            match parseVal f r2 with
            | none => none
            | some (v2, r3) =>
              match skipWs r3 with
              | ',' :: r4 =>
                match parseFields f r4 with
                | none => none
                | some (fs2, r5) => some ((k, v2) :: fs2, r5)
              | '}' :: r4 => some ([(k, v2)], r4)
              | _ => none
          | _ => none) = some ((k, v) :: fs, l)
        rw [skipWs_not_ws (by decide)]
        have hndT : noDigitHead (renderFields fs ind ++
            ('\n' :: (spacesChars ind2 ++ ('}' :: l)))) := by
          cases fs with
          | nil =>
            intro c hc
            rw [show renderFields [] ind ++
              ('\n' :: (spacesChars ind2 ++ ('}' :: l))) =
              '\n' :: (spacesChars ind2 ++ ('}' :: l)) from rfl] at hc
            injection hc with hc
            rw [← hc]
            decide
          | cons g gs =>
            obtain ⟨k2, v2⟩ := g
            intro c hc
            rw [show renderFields ((k2, v2) :: gs) ind ++
              ('\n' :: (spacesChars ind2 ++ ('}' :: l))) =
              ',' :: ('\n' :: (spacesChars ind ++
                (renderField (k2, v2) ind ++ (renderFields gs ind ++
                  ('\n' :: (spacesChars ind2 ++ ('}' :: l)))))))
              from by
                simp [renderFields, List.append_eq, List.cons_append,
                  List.append_assoc]] at hc
            injection hc with hc
            rw [← hc]
            decide
        have hszv : szJ v ≤ f := by
          have h1 : szF ((k, v) :: fs) = szJ v + szF fs + 1 := rfl
          omega
        have hA := (ih f (Nat.lt_succ_self f)).1 v ind
          (renderFields fs ind ++ ('\n' :: (spacesChars ind2 ++
            ('}' :: l))))
          (' ' :: (renderJ v ind ++ (renderFields fs ind ++
            ('\n' :: (spacesChars ind2 ++ ('}' :: l)))))) hszv hndT (by
            rw [skipWs_ws_cons (Or.inl rfl)]
            exact skipWs_renderJ v ind _)
        show (match parseVal f (' ' :: (renderJ v ind ++
            (renderFields fs ind ++
              ('\n' :: (spacesChars ind2 ++ ('}' :: l)))))) with
          | none => none
          | some (v2, r3) =>
            match skipWs r3 with
            | ',' :: r4 =>
              match parseFields f r4 with
              | none => none
              | some (fs2, r5) => some ((k, v2) :: fs2, r5)
            | '}' :: r4 => some ([(k, v2)], r4)
            | _ => none) = some ((k, v) :: fs, l)
        rw [hA]
        show (match skipWs (renderFields fs ind ++
            ('\n' :: (spacesChars ind2 ++ ('}' :: l)))) with
          | ',' :: r4 =>
            match parseFields f r4 with
            | none => none
            | some (fs2, r5) => some ((k, v) :: fs2, r5)
          | '}' :: r4 => some ([(k, v)], r4)
          | _ => none) = some ((k, v) :: fs, l)
        cases fs with
        | nil =>
          rw [show renderFields [] ind ++
            ('\n' :: (spacesChars ind2 ++ ('}' :: l))) =
            '\n' :: (spacesChars ind2 ++ ('}' :: l)) from rfl,
            skipWs_ws_cons (Or.inr (Or.inl rfl)), skipWs_spaces,
            skipWs_not_ws (by decide)]
          rfl
        | cons g gs =>
          obtain ⟨k2, v2⟩ := g
          have hszg : szF ((k2, v2) :: gs) ≤ f := by
            have h1 : szF ((k, v) :: (k2, v2) :: gs) =
              szJ v + szF ((k2, v2) :: gs) + 1 := rfl
            have h2 := szJ_pos v
            omega
          rw [show renderFields ((k2, v2) :: gs) ind ++
              ('\n' :: (spacesChars ind2 ++ ('}' :: l))) =
              ',' :: ('\n' :: (spacesChars ind ++
                (renderField (k2, v2) ind ++ (renderFields gs ind ++
                  ('\n' :: (spacesChars ind2 ++ ('}' :: l)))))))
            from by
              simp [renderFields, List.append_eq, List.cons_append, List.append_assoc],
            skipWs_not_ws (by decide)]
          have hC := (ih f (Nat.lt_succ_self f)).2.2 k2 v2 gs ind ind2 l
            ('\n' :: (spacesChars ind ++
              (renderField (k2, v2) ind ++ (renderFields gs ind ++
                ('\n' :: (spacesChars ind2 ++ ('}' :: l)))))))
            hszg (by
              rw [skipWs_ws_cons (Or.inr (Or.inl rfl)), skipWs_spaces]
              show skipWs ('"' :: _) = _
              rw [skipWs_not_ws (by decide)]
              simp [renderField, List.append_eq, List.cons_append,
                List.append_assoc])
          show (match parseFields f
              ('\n' :: (spacesChars ind ++
                (renderField (k2, v2) ind ++ (renderFields gs ind ++
                  ('\n' :: (spacesChars ind2 ++ ('}' :: l))))))) with
            | none => none
            | some (fs2, r5) => some ((k, v) :: fs2, r5)) =
            some ((k, v) :: (k2, v2) :: gs, l)
          rw [hC]

theorem sz_le_len : ∀ (N : Nat),
    (∀ (j : J) (ind : Nat), szJ j ≤ N → szJ j ≤ (renderJ j ind).length) ∧
    (∀ (xs : List J) (ind : Nat), szL xs ≤ N →
      szL xs ≤ (renderElems xs ind).length + 4) ∧
    (∀ (fs : List (String × J)) (ind : Nat), szF fs ≤ N →
      szF fs ≤ (renderFields fs ind).length + 4) := by
  intro N
  induction N using Nat.strong_induction_on with
  | _ N ih =>
    refine ⟨?_, ?_, ?_⟩
    · intro j ind hle
      cases j with
      | str s => simp [szJ, renderJ]
      | num n =>
        obtain ⟨k, r2, hk, hspec⟩ := natDigitsSpec_head n
        show szJ (J.num n) ≤ (natDigits n).length
        rw [natDigits_eq_spec, hspec]
        simp [szJ]
      | bool b => cases b <;> simp [szJ, renderJ]
      | arr xs =>
        cases xs with
        | nil => simp [szJ, szL, renderJ]
        | cons x xs =>
          have hszx := szJ_pos x
          have hszxs := szL_pos xs
          have hsz : szJ (J.arr (x :: xs)) = szJ x + szL xs + 2 := rfl
          have hx := (ih (N - 1) (by omega)).1 x (ind + 2) (by omega)
          have hxs := (ih (N - 1) (by omega)).2.1 xs (ind + 2)
            (by omega)
          simp only [szJ, szL, renderJ, List.length_cons,
            List.length_append, spacesChars, List.length_replicate]
          omega
      | obj fs =>
        cases fs with
        | nil => simp [szJ, szF, renderJ]
        | cons g gs =>
          obtain ⟨k, v⟩ := g
          have hszv := szJ_pos v
          have hszgs := szF_pos gs
          have hsz : szJ (J.obj ((k, v) :: gs)) =
            szJ v + szF gs + 2 := rfl
          have hv := (ih (N - 1) (by omega)).1 v (ind + 2) (by omega)
          have hgs := (ih (N - 1) (by omega)).2.2 gs (ind + 2)
            (by omega)
          simp only [szJ, szF, renderJ, renderField, List.length_cons,
            List.length_append, spacesChars, List.length_replicate]
          omega
    · intro xs ind hle
      cases xs with
      | nil => simp [szL, renderElems]
      | cons x xs =>
        have hszx := szJ_pos x
        have hszxs := szL_pos xs
        have hsz : szL (x :: xs) = szJ x + szL xs + 1 := rfl
        have hx := (ih (N - 1) (by omega)).1 x ind (by omega)
        have hxs := (ih (N - 1) (by omega)).2.1 xs ind (by omega)
        simp only [szL, renderElems, List.length_cons,
          List.length_append, spacesChars, List.length_replicate]
        omega
    · intro fs ind hle
      cases fs with
      | nil => simp [szF, renderFields]
      | cons g gs =>
        obtain ⟨k, v⟩ := g
        have hszv := szJ_pos v
        have hszgs := szF_pos gs
        have hsz : szF ((k, v) :: gs) = szJ v + szF gs + 1 := rfl
        have hv := (ih (N - 1) (by omega)).1 v ind (by omega)
        have hgs := (ih (N - 1) (by omega)).2.2 gs ind (by omega)
        simp only [szF, renderFields, renderField, List.length_cons,
          List.length_append, spacesChars, List.length_replicate]
        omega

theorem parseJson_renderJ (j : J) :
    parseJson (⟨renderJ j 0⟩ : String) = some j := by
  unfold parseJson
  have hfuel : szJ j ≤ (renderJ j 0).length + 1 := by
    have := (sz_le_len (szJ j)).1 j 0 (Nat.le_refl _)
    omega
  have hnd : noDigitHead ([] : List Char) := by
    intro c hc
    cases hc
  have hskip : skipWs (renderJ j 0) = renderJ j 0 ++ [] := by
    rw [List.append_nil]
    have := skipWs_renderJ j 0 []
    rwa [List.append_nil] at this
  have hmain := (parse_render ((renderJ j 0).length + 1)).1 j 0 []
    (renderJ j 0) hfuel hnd hskip
  rw [show (⟨renderJ j 0⟩ : String).data = renderJ j 0 from rfl, hmain]
  rfl

/-- **C6** (confirmed): the structured-data renderer round-trips — for
every Node tree, deserializing the emitted `json.dump` document yields
the serialized document back, so re-serializing it reproduces the text;
and every character above the control range other than `"` and `\`
(in particular all non-ASCII text) is written verbatim, not escaped. -/
theorem C6_json_round_trip : ∀ data : Node,
    parseJson (jsonText data) = some (Node.toJson data) ∧
    (parseJson (jsonText data)).map
      (fun doc => (⟨renderJ doc 0⟩ : String)) = some (jsonText data) ∧
    (∀ c : Char, 31 < c.toNat → c ≠ '"' → c ≠ '\\' →
      escapeChar c = [c]) := by
  intro data
  have h := parseJson_renderJ (Node.toJson data)
  refine ⟨h, ?_, ?_⟩
  · rw [show jsonText data = (⟨renderJ (Node.toJson data) 0⟩ : String)
      from rfl, h]
    rfl
  · intro c h1 h2 h3
    have hne8 : c ≠ Char.ofNat 8 := by
      rintro rfl
      revert h1
      decide
    have hne12 : c ≠ Char.ofNat 12 := by
      rintro rfl
      revert h1
      decide
    have hne10 : c ≠ '\n' := by
      rintro rfl
      revert h1
      decide
    have hne13 : c ≠ '\r' := by
      rintro rfl
      revert h1
      decide
    have hne9 : c ≠ '\t' := by
      rintro rfl
      revert h1
      decide
    rw [escapeChar, if_neg h3, if_neg h2, if_neg hne8, if_neg hne12,
      if_neg hne10, if_neg hne13, if_neg hne9, if_neg (by omega)]

/-- Witness for `C6_json_round_trip`: a node with non-ASCII text
round-trips, and the character `中` is emitted verbatim. -/
theorem C6_json_round_trip_witness :
    parseJson (jsonText (.depthGuardDir "目录x")) =
      some ((Node.depthGuardDir "目录x").toJson) ∧
    ((31 : Nat) < ('中' : Char).toNat ∧ escapeChar '中' = ['中']) := by
  refine ⟨(C6_json_round_trip (.depthGuardDir "目录x")).1,
    by decide, (C6_json_round_trip (.depthGuardDir "目录x")).2.2 '中'
      (by decide) (by decide) (by decide)⟩
